import Mathlib

/-!
# SPI transfer context (`drivers/spi/spi_context.h`)

A shallow embedding of the scatter-gather cursor functions of the private SPI
driver API, and the properties of the specification that concern them.

Conventions of the embedding.

* A data pointer (`void *`) is a natural-number address; `0` is `NULL`
  ("absent").  Pointer arithmetic does not wrap: leaving the addressed object
  is undefined in C, it is not arithmetic modulo the word size.
* A pointer into a buffer array (`struct spi_buf **`) is the array together
  with an index into it.  An array entry is `some b` for a pointer to the
  descriptor `b` and `none` for a `NULL` entry.  Reading an entry outside the
  array is undefined in C; the embedding makes the read fallible and every
  function that performs it returns `none` in that case.
* `dfs` is a `uint8_t`; dividing by `dfs = 0` is undefined in C and is also a
  `none` result.
* `tx_len` and `rx_len` are `u32_t` and a descriptor's `len` is a `size_t`.
  On the 32-bit targets this header is written for, `len / dfs` fits `u32_t`,
  and the only decrement is guarded by `len != 0`, so no operation on the
  counts can wrap; they are plain naturals.
-/

namespace SpiContext

/-! ## Data model -/

/-- The buffer descriptor `struct spi_buf` of `spi.h`: `void *buf; size_t len;`. -/
structure spi_buf where
  buf : Nat
  len : Nat
deriving DecidableEq, Repr

/-- A value of type `struct spi_buf **`: a position in an array of descriptor
pointers.  `arr` is the array the pointer points into, `idx` the position. -/
structure spi_buf_ptr where
  arr : List (Option spi_buf)
  idx : Nat
deriving DecidableEq, Repr

/-- The read `*p` of a `struct spi_buf **`.  The outer `none` is a read outside
the array; `some none` is a `NULL` entry, `some (some b)` a descriptor. -/
def spi_buf_ptr.deref (p : spi_buf_ptr) : Option (Option spi_buf) :=
  p.arr[p.idx]?

/-- The increment `p++` of a `struct spi_buf **`. -/
def spi_buf_ptr.next (p : spi_buf_ptr) : spi_buf_ptr :=
  { p with idx := p.idx + 1 }

/-- The transfer context `struct spi_context`.  `config` is the address of the
bound `struct spi_config` (`0` when none is bound). -/
structure spi_context where
  config : Nat
  current_tx : spi_buf_ptr
  current_rx : spi_buf_ptr
  tx_buf : Nat
  tx_len : Nat
  rx_buf : Nat
  rx_len : Nat
deriving DecidableEq, Repr

/-- The quotient `len/dfs` of the source; undefined when `dfs` is zero. -/
def frame_count (len dfs : Nat) : Option Nat :=
  if dfs = 0 then none else some (len / dfs)

/-! ## Operations -/

/-- Embedding of `spi_context_buffers_setup` (lines 65-97). -/
def spi_context_buffers_setup (ctx : spi_context) (tx_bufs rx_bufs : spi_buf_ptr)
    (dfs : Nat) : Option spi_context :=
  let ctx := { ctx with current_tx := tx_bufs, current_rx := rx_bufs }
  let tx_side : Option spi_context :=
    match tx_bufs.deref with
    | none => none
    | some (some b) =>
      match frame_count b.len dfs with
      | none => none
      | some n => some { ctx with tx_buf := b.buf, tx_len := n }
    | some none => some { ctx with tx_buf := 0, tx_len := 0 }
  match tx_side with
  | none => none
  | some ctx =>
    match rx_bufs.deref with
    | none => none
    | some (some b) =>
      match frame_count b.len dfs with
      | none => none
      | some n => some { ctx with rx_buf := b.buf, rx_len := n }
    | some none => some { ctx with rx_buf := 0, rx_len := 0 }

/-- Embedding of `spi_context_update_tx` (lines 99-120). -/
def spi_context_update_tx (ctx : spi_context) (dfs : Nat) : Option spi_context :=
  if ctx.tx_len = 0 then
    some ctx
  else
    let ctx := { ctx with tx_len := ctx.tx_len - 1 }
    if ctx.tx_len = 0 then
      let ctx := { ctx with current_tx := ctx.current_tx.next }
      match ctx.current_tx.deref with
      | none => none
      | some (some b) =>
        match frame_count b.len dfs with
        | none => none
        | some n => some { ctx with tx_buf := b.buf, tx_len := n }
      | some none => some { ctx with tx_buf := 0 }
    else if ctx.tx_buf ≠ 0 then
      some { ctx with tx_buf := ctx.tx_buf + dfs }
    else
      some ctx

/-- Embedding of `spi_context_tx_on` (lines 122-126). -/
def spi_context_tx_on (ctx : spi_context) : Bool :=
  ctx.tx_buf != 0 || ctx.tx_len != 0

/-- Embedding of `spi_context_update_rx` (lines 128-149). -/
def spi_context_update_rx (ctx : spi_context) (dfs : Nat) : Option spi_context :=
  if ctx.rx_len = 0 then
    some ctx
  else
    let ctx := { ctx with rx_len := ctx.rx_len - 1 }
    if ctx.rx_len = 0 then
      let ctx := { ctx with current_rx := ctx.current_rx.next }
      match ctx.current_rx.deref with
      | none => none
      | some (some b) =>
        match frame_count b.len dfs with
        | none => none
        | some n => some { ctx with rx_buf := b.buf, rx_len := n }
      | some none => some { ctx with rx_buf := 0 }
    else if ctx.rx_buf ≠ 0 then
      some { ctx with rx_buf := ctx.rx_buf + dfs }
    else
      some ctx

/-- Embedding of `spi_context_rx_on` (lines 151-155). -/
def spi_context_rx_on (ctx : spi_context) : Bool :=
  ctx.rx_buf != 0 || ctx.rx_len != 0

/-! ## Callers: how a driver uses the operations -/

/-- A caller's buffer array for the descriptors `L`: pointers to the
descriptors in order, the terminating `NULL` entry, then whatever memory
follows (`rest`).  The result points at the head of the array. -/
def buf_array (L : List spi_buf) (rest : List (Option spi_buf)) : spi_buf_ptr :=
  { arr := L.map some ++ none :: rest, idx := 0 }

/-- One advance call of a driver: on the transmit or on the receive side. -/
inductive update_call where
  | tx
  | rx
deriving DecidableEq, Repr

/-- Runs a sequence of advance calls, in order, with the frame size `dfs`. -/
def run_updates : List update_call → spi_context → Nat → Option spi_context
  | [], ctx, _ => some ctx
  | update_call.tx :: calls, ctx, dfs =>
    match spi_context_update_tx ctx dfs with
    | none => none
    | some c => run_updates calls c dfs
  | update_call.rx :: calls, ctx, dfs =>
    match spi_context_update_rx ctx dfs with
    | none => none
    | some c => run_updates calls c dfs

/-- Calls `spi_context_update_tx` `n` times in a row. -/
def update_tx_times : Nat → spi_context → Nat → Option spi_context
  | 0, ctx, _ => some ctx
  | n + 1, ctx, dfs =>
    match spi_context_update_tx ctx dfs with
    | none => none
    | some c => update_tx_times n c dfs

/-- Calls `spi_context_update_rx` `n` times in a row. -/
def update_rx_times : Nat → spi_context → Nat → Option spi_context
  | 0, ctx, _ => some ctx
  | n + 1, ctx, dfs =>
    match spi_context_update_rx ctx dfs with
    | none => none
    | some c => update_rx_times n c dfs

/-- The transmit loop of a driver, `while (spi_context_tx_on(ctx)) { use
ctx->tx_buf; spi_context_update_tx(ctx, dfs); }`, run for at most `fuel`
iterations.  The result is the list of `tx_buf` values seen, one per call of
`spi_context_update_tx`, and the context in which `spi_context_tx_on` first
answered false.  `none` when the loop is still running after `fuel`
iterations or a call is undefined. -/
def tx_loop : Nat → spi_context → Nat → Option (List Nat × spi_context)
  | 0, _, _ => none
  | fuel + 1, ctx, dfs =>
    if spi_context_tx_on ctx then
      match spi_context_update_tx ctx dfs with
      | none => none
      | some c =>
        match tx_loop fuel c dfs with
        | none => none
        | some (seen, last) => some (ctx.tx_buf :: seen, last)
    else
      some ([], ctx)

/-- The byte pointers of the frames of one descriptor with frame size `dfs`:
`buf, buf + dfs, ...` for a present pointer, and the absent pointer for every
frame of a descriptor whose pointer is absent. -/
def segment_frames (dfs : Nat) (b : spi_buf) : List Nat :=
  (List.range (b.len / dfs)).map (fun i => if b.buf = 0 then 0 else b.buf + i * dfs)

/-- The number of whole frames in the descriptors `L`: the sum of `len/dfs`. -/
def total_frames (dfs : Nat) (L : List spi_buf) : Nat :=
  (L.map (fun b => b.len / dfs)).sum

/-! ## Auxiliary definitions used in the statements and proofs -/

/-- The pointers seen while `n` frames are consumed starting at pointer `q`. -/
def frames_from (q n dfs : Nat) : List Nat :=
  (List.range n).map (fun i => if q = 0 then 0 else q + i * dfs)

/-- The context after the step that leaves a segment: the boundary step does
not depend on the byte pointer or on how many frames were left before. -/
def tx_leave_segment (c : spi_context) (dfs : Nat) : Option spi_context :=
  spi_context_update_tx { c with tx_len := 1, tx_buf := 0 } dfs

/-- The byte pointer loaded when the cursor arrives at the head of `L`. -/
def head_buf (L : List spi_buf) : Nat :=
  match L with
  | [] => 0
  | b :: _ => b.buf

/-- The frame count loaded when the cursor arrives at the head of `L`. -/
def head_len (dfs : Nat) (L : List spi_buf) : Nat :=
  match L with
  | [] => 0
  | b :: _ => b.len / dfs

/-- After exactly `N` calls of `spi_context_update_tx` the transmit side is off
for the first time: it is on in the context `s` and after each of the first
`N - 1` calls, and off after the `N`-th. -/
def tx_off_after (s : spi_context) (dfs N : Nat) : Prop :=
  (∀ k, k < N → ∃ c, update_tx_times k s dfs = some c ∧ spi_context_tx_on c = true) ∧
  ∃ c, update_tx_times N s dfs = some c ∧ spi_context_tx_on c = false

/-- A context as a driver holds it before its first transaction: zeroed, no
configuration bound, no buffer list attached. -/
def idle_context : spi_context :=
  { config := 0, current_tx := ⟨[], 0⟩, current_rx := ⟨[], 0⟩,
    tx_buf := 0, tx_len := 0, rx_buf := 0, rx_len := 0 }

/-- The context after `spi_context_buffers_setup` with the transmit list
`[{1000, 8}, {2000, 4}]`, an empty receive list and frame size 4. -/
def armed_context : spi_context :=
  { config := 7,
    current_tx := ⟨[some ⟨1000, 8⟩, some ⟨2000, 4⟩, none], 0⟩,
    current_rx := ⟨[none], 0⟩,
    tx_buf := 1000, tx_len := 2, rx_buf := 0, rx_len := 0 }

/-- The context `armed_context` one frame later: on the last frame of the
first descriptor. -/
def mid_context : spi_context :=
  { armed_context with tx_buf := 1004, tx_len := 1 }

/-- The context `armed_context` two frames later: on the last frame of the list. -/
def last_frame_context : spi_context :=
  { armed_context with current_tx := ⟨[some ⟨1000, 8⟩, some ⟨2000, 4⟩, none], 1⟩,
                       tx_buf := 2000, tx_len := 1 }

/-- The context `armed_context` after all three frames: both sides off. -/
def exhausted_context : spi_context :=
  { armed_context with current_tx := ⟨[some ⟨1000, 8⟩, some ⟨2000, 4⟩, none], 2⟩,
                       tx_buf := 0, tx_len := 0 }

/-- Exchanges the transmit and the receive side of a context. -/
def swap_sides (c : spi_context) : spi_context :=
  { config := c.config, current_tx := c.current_rx, current_rx := c.current_tx,
    tx_buf := c.rx_buf, tx_len := c.rx_len, rx_buf := c.tx_buf, rx_len := c.tx_len }

/-- The invariant of one side (cursor `cur`, byte pointer `buf`, remaining
count `len`) while it walks the array of the descriptors `L`: the cursor is on
a descriptor `b` and `len` frames of it are left, `buf` being the address of
the next one, or the cursor is on the terminating entry and the side is off. -/
def side_inv (L : List spi_buf) (rest : List (Option spi_buf)) (dfs : Nat)
    (cur : spi_buf_ptr) (buf len : Nat) : Prop :=
  cur.arr = L.map some ++ none :: rest ∧
  match L[cur.idx]? with
  | some b =>
    len ≤ b.len / dfs ∧ (len = 0 → b.len / dfs = 0) ∧
      buf = if b.buf = 0 then 0 else b.buf + (b.len / dfs - len) * dfs
  | none => cur.idx = L.length ∧ len = 0 ∧ buf = 0

/-- The invariant of a transaction on the lists `L` (transmit) and `R` (receive). -/
def transfer_inv (L R : List spi_buf) (restT restR : List (Option spi_buf)) (dfs : Nat)
    (c : spi_context) : Prop :=
  side_inv L restT dfs c.current_tx c.tx_buf c.tx_len ∧
  side_inv R restR dfs c.current_rx c.rx_buf c.rx_len

/-! ## Configuration and chip-select -/

/-- Modelled from the spec: the chip-select descriptor `struct spi_cs_control`
of `spi.h` (GPIO device handle, pin number, delay in microseconds), whose
declaration is not among the sources. -/
structure spi_cs_control where
  gpio_dev : Nat
  gpio_pin : Nat
  delay : Nat
deriving DecidableEq, Repr

/-- Modelled from the spec: the transaction configuration `struct spi_config`
of `spi.h`, whose declaration is not among the sources, with what the
specification names: the word-size setting and the optional chip-select
descriptor (`cs` is a pointer, `none` when it is `NULL`). -/
structure spi_config where
  operation : Nat
  cs : Option spi_cs_control
deriving DecidableEq, Repr

/-- The memory that holds the configurations: the `struct spi_config` stored at
an address, `none` where the address holds no configuration (reading through
such a pointer is undefined). -/
abbrev config_memory := Nat → Option spi_config

/-- Modelled from the spec: the flag `GPIO_DIR_OUT` of `gpio.h` ("configure
the pin as an output"), whose definition is not among the sources. -/
def GPIO_DIR_OUT : Nat := 1

/-- A call of one of the external primitives, in the order of the source:
`gpio_pin_configure(dev, pin, flags)`, `gpio_pin_write(dev, pin, value)` and
`k_busy_wait(usec)`. -/
inductive hw_call where
  | gpio_pin_configure (dev pin flags : Nat)
  | gpio_pin_write (dev pin value : Nat)
  | k_busy_wait (usec : Nat)
deriving DecidableEq, Repr

/-- Embedding of `spi_context_configured` (lines 34-38). -/
def spi_context_configured (ctx : spi_context) (config : Nat) : Bool :=
  ctx.config == config

/-- Embedding of `spi_context_cs_configure` (lines 40-48): the calls of the
external primitives it makes, in order. -/
def spi_context_cs_configure (mem : config_memory) (ctx : spi_context) :
    Option (List hw_call) :=
  match mem ctx.config with
  | none => none
  | some config =>
    match config.cs with
    | some cs =>
      some [hw_call.gpio_pin_configure cs.gpio_dev cs.gpio_pin GPIO_DIR_OUT,
            hw_call.gpio_pin_write cs.gpio_dev cs.gpio_pin 1]
    | none => some []

/-- Embedding of `spi_context_cs_control` (lines 50-63): the calls of the
external primitives it makes, in order.  `cs_on` is the parameter `on`. -/
def spi_context_cs_control (mem : config_memory) (ctx : spi_context) (cs_on : Bool) :
    Option (List hw_call) :=
  match mem ctx.config with
  | none => none
  | some config =>
    match config.cs with
    | some cs =>
      if cs_on then
        some [hw_call.gpio_pin_write cs.gpio_dev cs.gpio_pin 0,
              hw_call.k_busy_wait cs.delay]
      else
        some [hw_call.k_busy_wait cs.delay,
              hw_call.gpio_pin_write cs.gpio_dev cs.gpio_pin 1]
    | none => some []

/-- Modelled from the spec: the state of one GPIO pin, its direction (the
flags it was last configured with) and its level (the value last written). -/
structure pin_state where
  dir : Nat
  level : Nat
deriving DecidableEq, Repr

/-- Modelled from the spec: the state of the GPIO hardware, the state of every
pin of every device. -/
abbrev gpio_state := Nat → Nat → pin_state

/-- Modelled from the spec: what one call of an external primitive does to the
GPIO state.  Configuring a pin sets its direction, writing sets its level,
each on that pin only; waiting changes nothing. -/
def hw_call.apply (e : hw_call) (g : gpio_state) : gpio_state :=
  match e with
  | hw_call.gpio_pin_configure dev pin flags =>
    fun d p => if d = dev ∧ p = pin then { g d p with dir := flags } else g d p
  | hw_call.gpio_pin_write dev pin value =>
    fun d p => if d = dev ∧ p = pin then { g d p with level := value } else g d p
  | hw_call.k_busy_wait _ => g

/-- The GPIO state after a sequence of calls, made in order. -/
def run_calls : List hw_call → gpio_state → gpio_state
  | [], g => g
  | e :: t, g => run_calls t (e.apply g)

/-- Whether a call is a GPIO write. -/
def hw_call.is_write : hw_call → Bool
  | hw_call.gpio_pin_write _ _ _ => true
  | _ => false

/-- A configuration memory with two configurations that agree in every field,
stored at the addresses 7 and 8: chip-select on pin 3 of device 50 with a
delay of 10 microseconds; and one without chip-select at address 9. -/
def sample_memory : config_memory := fun a =>
  if a = 7 ∨ a = 8 then some { operation := 8, cs := some ⟨50, 3, 10⟩ }
  else if a = 9 then some { operation := 8, cs := none }
  else none

/-- A GPIO state in which every pin is an input at level 0. -/
def reset_gpio_state : gpio_state := fun _ _ => { dir := 0, level := 0 }

/-- The advance of one side, on the side's own fields only: cursor `cur`,
byte pointer `buf`, remaining count `len`.  It follows the body shared by
`spi_context_update_tx` and `spi_context_update_rx` line by line. -/
def side_update (cur : spi_buf_ptr) (buf len dfs : Nat) :
    Option (spi_buf_ptr × Nat × Nat) :=
  if len = 0 then
    some (cur, buf, len)
  else if len - 1 = 0 then
    match cur.next.deref with
    | none => none
    | some (some b) =>
      match frame_count b.len dfs with
      | none => none
      | some n => some (cur.next, b.buf, n)
    | some none => some (cur.next, 0, len - 1)
  else if buf ≠ 0 then
    some (cur, buf + dfs, len - 1)
  else
    some (cur, buf, len - 1)

/-- A context in the first frame of a bidirectional transaction with frame
size 2: three frames to transmit from address 3000, one to receive at 4000. -/
def duplex_context : spi_context :=
  { config := 7,
    current_tx := ⟨[some ⟨3000, 6⟩, none], 0⟩,
    current_rx := ⟨[some ⟨4000, 2⟩, none], 0⟩,
    tx_buf := 3000, tx_len := 3, rx_buf := 4000, rx_len := 1 }

/-! ## Single steps of the transmit side -/

theorem update_tx_zero (ctx : spi_context) (dfs : Nat) (h : ctx.tx_len = 0) :
    spi_context_update_tx ctx dfs = some ctx := by
  simp [spi_context_update_tx, h]

theorem update_tx_within (ctx : spi_context) (dfs n : Nat) (h : ctx.tx_len = n + 2) :
    spi_context_update_tx ctx dfs =
      some { ctx with tx_len := n + 1,
                      tx_buf := if ctx.tx_buf = 0 then 0 else ctx.tx_buf + dfs } := by
  by_cases hb : ctx.tx_buf = 0 <;> simp [spi_context_update_tx, h, hb]

theorem update_tx_load (ctx : spi_context) (dfs : Nat) (b : spi_buf) (h : ctx.tx_len = 1)
    (hd : 0 < dfs) (hn : ctx.current_tx.next.deref = some (some b)) :
    spi_context_update_tx ctx dfs =
      some { ctx with current_tx := ctx.current_tx.next, tx_buf := b.buf,
                      tx_len := b.len / dfs } := by
  have hd0 : dfs ≠ 0 := Nat.pos_iff_ne_zero.mp hd
  simp [spi_context_update_tx, h, hn, frame_count, hd0]

theorem update_tx_end (ctx : spi_context) (dfs : Nat) (h : ctx.tx_len = 1)
    (hn : ctx.current_tx.next.deref = some none) :
    spi_context_update_tx ctx dfs =
      some { ctx with current_tx := ctx.current_tx.next, tx_buf := 0, tx_len := 0 } := by
  simp [spi_context_update_tx, h, hn]

theorem buf_array_deref_lt (pre L : List spi_buf) (b : spi_buf) (rest : List (Option spi_buf)) :
    (spi_buf_ptr.mk ((pre ++ b :: L).map some ++ none :: rest) pre.length).deref
      = some (some b) := by
  have h : (pre ++ b :: L).map some ++ none :: rest
      = pre.map some ++ (some b :: (L.map some ++ none :: rest)) := by simp
  have hl : (pre.map some).length ≤ pre.length := by simp
  simp only [spi_buf_ptr.deref, h]
  rw [List.getElem?_append_right hl]
  simp

theorem buf_array_deref_end (L : List spi_buf) (rest : List (Option spi_buf)) :
    (spi_buf_ptr.mk (L.map some ++ none :: rest) L.length).deref = some none := by
  have hl : (L.map some).length ≤ L.length := by simp
  simp only [spi_buf_ptr.deref]
  rw [List.getElem?_append_right hl]
  simp

/-! ## The transmit loop over one descriptor and over a list -/

theorem frames_from_succ (q n dfs : Nat) :
    frames_from q (n + 1) dfs
      = q :: frames_from (if q = 0 then 0 else q + dfs) n dfs := by
  unfold frames_from
  rw [List.range_succ_eq_map]
  by_cases hq : q = 0
  · simp [hq, List.map_map, Function.comp_def]
  · have hq2 : q + dfs ≠ 0 := by omega
    simp only [List.map_cons, List.map_map, hq, hq2, if_false, Nat.zero_mul, Nat.add_zero]
    congr 1
    apply List.map_congr_left
    intro i _
    simp only [Function.comp_apply, Nat.succ_eq_add_one, Nat.add_mul, Nat.one_mul]
    omega

theorem update_tx_last (c : spi_context) (dfs : Nat) (h : c.tx_len = 1) :
    spi_context_update_tx c dfs = tx_leave_segment c dfs := by
  simp only [spi_context_update_tx, tx_leave_segment, h]
  simp

theorem tx_loop_segment (dfs : Nat) (c' : spi_context) (fuel : Nat) :
    ∀ (n : Nat) (c : spi_context), c.tx_len = n + 1 → tx_leave_segment c dfs = some c' →
      tx_loop (n + 1 + fuel) c dfs =
        match tx_loop fuel c' dfs with
        | none => none
        | some (seen, last) => some (frames_from c.tx_buf (n + 1) dfs ++ seen, last) := by
  intro n
  induction n with
  | zero =>
    intro c hlen hnext
    have hon : spi_context_tx_on c = true := by simp [spi_context_tx_on, hlen]
    have hstep : spi_context_update_tx c dfs = some c' := by
      rw [update_tx_last c dfs hlen, hnext]
    rw [show 0 + 1 + fuel = fuel + 1 by omega]
    simp only [tx_loop, hon, hstep, if_true]
    cases tx_loop fuel c' dfs with
    | none => rfl
    | some r =>
      by_cases hq : c.tx_buf = 0 <;> simp [frames_from, List.range_succ, hq]
  | succ n ih =>
    intro c hlen hnext
    have hon : spi_context_tx_on c = true := by simp [spi_context_tx_on, hlen]
    have hstep := update_tx_within c dfs n hlen
    have hih := ih { c with tx_len := n + 1,
                            tx_buf := if c.tx_buf = 0 then 0 else c.tx_buf + dfs } rfl
      (by simpa [tx_leave_segment] using hnext)
    rw [show n + 1 + 1 + fuel = (n + 1 + fuel) + 1 by omega]
    simp only [tx_loop, hon, hstep, if_true]
    rw [hih]
    cases tx_loop fuel c' dfs with
    | none => rfl
    | some r => simp [frames_from_succ c.tx_buf (n + 1)]

theorem tx_leave_segment_arrive (dfs : Nat) (hd : 0 < dfs) (rest : List (Option spi_buf))
    (pre : List spi_buf) (b : spi_buf) (L : List spi_buf) (c : spi_context)
    (hcur : c.current_tx = ⟨(pre ++ b :: L).map some ++ none :: rest, pre.length⟩) :
    tx_leave_segment c dfs =
      some { c with current_tx := ⟨((pre ++ [b]) ++ L).map some ++ none :: rest,
                                    (pre ++ [b]).length⟩,
                    tx_buf := head_buf L, tx_len := head_len dfs L } := by
  have harr : (pre ++ [b]) ++ L = pre ++ b :: L := by simp
  have hnext : ({ c with tx_len := 1, tx_buf := 0 } : spi_context).current_tx.next
      = ⟨((pre ++ [b]) ++ L).map some ++ none :: rest, (pre ++ [b]).length⟩ := by
    simp [spi_buf_ptr.next, hcur]
  cases L with
  | nil =>
    have hder : ({ c with tx_len := 1, tx_buf := 0 } : spi_context).current_tx.next.deref
        = some none := by
      rw [hnext]
      simpa using buf_array_deref_end (pre ++ [b]) rest
    rw [tx_leave_segment, update_tx_end _ dfs rfl hder, hnext]
    rfl
  | cons b2 L2 =>
    have hder : ({ c with tx_len := 1, tx_buf := 0 } : spi_context).current_tx.next.deref
        = some (some b2) := by
      rw [hnext]
      exact buf_array_deref_lt (pre ++ [b]) L2 b2 rest
    rw [tx_leave_segment, update_tx_load _ dfs b2 rfl hd hder, hnext]
    rfl

theorem tx_loop_list (dfs : Nat) (hd : 0 < dfs) (rest : List (Option spi_buf)) :
    ∀ (L pre : List spi_buf) (c : spi_context),
      c.current_tx = ⟨(pre ++ L).map some ++ none :: rest, pre.length⟩ →
      c.tx_buf = head_buf L → c.tx_len = head_len dfs L →
      (∀ b ∈ L, 1 ≤ b.len / dfs) →
      ∀ fuel, total_frames dfs L < fuel →
        tx_loop fuel c dfs =
          some (L.flatMap (segment_frames dfs),
                { c with current_tx := ⟨(pre ++ L).map some ++ none :: rest,
                                        (pre ++ L).length⟩,
                         tx_buf := 0, tx_len := 0 }) := by
  intro L
  induction L with
  | nil =>
    intro pre c hcur hbuf hlen _ fuel hfuel
    obtain ⟨k, rfl⟩ : ∃ k, fuel = k + 1 := ⟨fuel - 1, by omega⟩
    have hoff : spi_context_tx_on c = false := by
      simp [spi_context_tx_on, hbuf, hlen, head_buf, head_len]
    simp only [tx_loop, hoff, List.flatMap_nil]
    cases c
    simp_all [head_buf, head_len]
  | cons b L ih =>
    intro pre c hcur hbuf hlen hall fuel hfuel
    have hb : 1 ≤ b.len / dfs := hall b (List.mem_cons_self _ _)
    obtain ⟨n, hn⟩ : ∃ n, b.len / dfs = n + 1 := ⟨b.len / dfs - 1, by omega⟩
    have htot : total_frames dfs (b :: L) = (n + 1) + total_frames dfs L := by
      simp [total_frames, hn]
    obtain ⟨k, rfl⟩ : ∃ k, fuel = n + 1 + k := ⟨fuel - (n + 1), by omega⟩
    have hlen2 : c.tx_len = n + 1 := by rw [hlen]; simpa [head_len] using hn
    have harrive := tx_leave_segment_arrive dfs hd rest pre b L c hcur
    rw [tx_loop_segment dfs _ k n c hlen2 harrive]
    rw [ih (pre ++ [b]) _ rfl rfl rfl (fun x hx => hall x (List.mem_cons_of_mem _ hx)) k
      (by omega)]
    have hseg : segment_frames dfs b = frames_from c.tx_buf (n + 1) dfs := by
      simp [segment_frames, frames_from, hbuf, head_buf, hn]
    simp [List.flatMap_cons, hseg]

/-! ## Arming a transaction -/

theorem buf_array_deref (L : List spi_buf) (rest : List (Option spi_buf)) :
    (buf_array L rest).deref = some L.head? := by
  cases L <;> simp [buf_array, spi_buf_ptr.deref]

theorem buffers_setup_eq (ctx : spi_context) (tx rx : spi_buf_ptr) (dfs : Nat)
    (et er : Option spi_buf) (hd : 0 < dfs) (htx : tx.deref = some et)
    (hrx : rx.deref = some er) :
    spi_context_buffers_setup ctx tx rx dfs =
      some { config := ctx.config, current_tx := tx, current_rx := rx,
             tx_buf := head_buf et.toList, tx_len := head_len dfs et.toList,
             rx_buf := head_buf er.toList, rx_len := head_len dfs er.toList } := by
  have hd0 : dfs ≠ 0 := Nat.pos_iff_ne_zero.mp hd
  cases et <;> cases er <;>
    simp [spi_context_buffers_setup, htx, hrx, frame_count, hd0, head_buf, head_len]

theorem buffers_setup_buf_array (ctx : spi_context) (L R : List spi_buf)
    (restT restR : List (Option spi_buf)) (dfs : Nat) (hd : 0 < dfs) :
    spi_context_buffers_setup ctx (buf_array L restT) (buf_array R restR) dfs =
      some { config := ctx.config, current_tx := buf_array L restT,
             current_rx := buf_array R restR,
             tx_buf := head_buf L, tx_len := head_len dfs L,
             rx_buf := head_buf R, rx_len := head_len dfs R } := by
  rw [buffers_setup_eq ctx _ _ dfs _ _ hd (buf_array_deref L restT) (buf_array_deref R restR)]
  cases L <;> cases R <;> simp [head_buf, head_len]

theorem tx_loop_spec (dfs : Nat) :
    ∀ (fuel : Nat) (c : spi_context) (seen : List Nat) (last : spi_context),
      tx_loop fuel c dfs = some (seen, last) →
        tx_off_after c dfs seen.length ∧ update_tx_times seen.length c dfs = some last ∧
          spi_context_tx_on last = false := by
  intro fuel
  induction fuel with
  | zero => intro c seen last h; simp [tx_loop] at h
  | succ fuel ih =>
    intro c seen last h
    by_cases hon : spi_context_tx_on c = true
    · simp only [tx_loop, hon, if_true] at h
      cases hstep : spi_context_update_tx c dfs with
      | none => simp [hstep] at h
      | some c1 =>
        rw [hstep] at h
        cases hrec : tx_loop fuel c1 dfs with
        | none => simp [hrec] at h
        | some r =>
          obtain ⟨seen1, last1⟩ := r
          simp only [hrec, Option.some.injEq, Prod.mk.injEq] at h
          obtain ⟨rfl, rfl⟩ := h
          obtain ⟨⟨hbefore, hafter⟩, htimes, hoff⟩ := ih c1 seen1 last1 hrec
          refine ⟨⟨?_, ?_⟩, ?_, hoff⟩
          · intro k hk
            cases k with
            | zero => exact ⟨c, rfl, hon⟩
            | succ k =>
              simp only [update_tx_times, hstep]
              exact hbefore k (by simpa using hk)
          · simpa [update_tx_times, hstep] using hafter
          · simpa [update_tx_times, hstep] using htimes
    · have hoff : spi_context_tx_on c = false := by simpa using hon
      simp only [tx_loop, hoff] at h
      simp only [Bool.false_eq_true, if_false, Option.some.injEq, Prod.mk.injEq] at h
      obtain ⟨rfl, rfl⟩ := h
      exact ⟨⟨fun k hk => absurd hk (by simp), c, rfl, hoff⟩, rfl, hoff⟩

theorem length_flatMap_segment_frames (dfs : Nat) (L : List spi_buf) :
    (L.flatMap (segment_frames dfs)).length = total_frames dfs L := by
  induction L with
  | nil => rfl
  | cons b L ih =>
    simp only [List.flatMap_cons, List.length_append, ih, total_frames, List.map_cons,
      List.sum_cons]
    simp [segment_frames]

/-- The transmit loop started right after `spi_context_buffers_setup` on a
list whose descriptors all hold a whole frame. -/
theorem tx_loop_after_setup (ctx : spi_context) (L R : List spi_buf)
    (restT restR : List (Option spi_buf)) (dfs : Nat) (hd : 0 < dfs)
    (hL : ∀ b ∈ L, 1 ≤ b.len / dfs) :
    ∃ s, spi_context_buffers_setup ctx (buf_array L restT) (buf_array R restR) dfs = some s ∧
      ∀ fuel, total_frames dfs L < fuel →
        tx_loop fuel s dfs =
          some (L.flatMap (segment_frames dfs),
                { s with current_tx := ⟨L.map some ++ none :: restT, L.length⟩,
                         tx_buf := 0, tx_len := 0 }) := by
  refine ⟨_, buffers_setup_buf_array ctx L R restT restR dfs hd, ?_⟩
  intro fuel hfuel
  have h := tx_loop_list dfs hd restT L []
    (spi_context.mk ctx.config (buf_array L restT) (buf_array R restR)
      (head_buf L) (head_len dfs L) (head_buf R) (head_len dfs R))
    rfl rfl rfl hL fuel hfuel
  simpa using h

theorem update_tx_times_zero_len (dfs : Nat) (c : spi_context) (h : c.tx_len = 0) :
    ∀ n, update_tx_times n c dfs = some c := by
  intro n
  induction n with
  | zero => rfl
  | succ n ih => simp [update_tx_times, update_tx_zero c dfs h, ih]

theorem tx_loop_seen (dfs : Nat) :
    ∀ (fuel : Nat) (c : spi_context) (seen : List Nat) (last : spi_context),
      tx_loop fuel c dfs = some (seen, last) →
        ∀ k ck, k < seen.length → update_tx_times k c dfs = some ck →
          seen[k]? = some ck.tx_buf := by
  intro fuel
  induction fuel with
  | zero => intro c seen last h; simp [tx_loop] at h
  | succ fuel ih =>
    intro c seen last h
    by_cases hon : spi_context_tx_on c = true
    · simp only [tx_loop, hon, if_true] at h
      cases hstep : spi_context_update_tx c dfs with
      | none => simp [hstep] at h
      | some c1 =>
        rw [hstep] at h
        cases hrec : tx_loop fuel c1 dfs with
        | none => simp [hrec] at h
        | some r =>
          obtain ⟨seen1, last1⟩ := r
          simp only [hrec, Option.some.injEq, Prod.mk.injEq] at h
          obtain ⟨rfl, rfl⟩ := h
          intro k ck hk hck
          cases k with
          | zero =>
            simp only [update_tx_times, Option.some.injEq] at hck
            simp [hck]
          | succ k =>
            simp only [update_tx_times, hstep] at hck
            simpa using ih c1 seen1 last1 hrec k ck (by simpa using hk) hck
    · have hoff : spi_context_tx_on c = false := by simpa using hon
      simp only [tx_loop, hoff] at h
      simp only [Bool.false_eq_true, if_false, Option.some.injEq, Prod.mk.injEq] at h
      obtain ⟨rfl, rfl⟩ := h
      intro k ck hk
      simp at hk

/-! ## The receive side and the independence of the two sides -/

theorem update_rx_zero (ctx : spi_context) (dfs : Nat) (h : ctx.rx_len = 0) :
    spi_context_update_rx ctx dfs = some ctx := by
  simp [spi_context_update_rx, h]

theorem update_rx_times_zero_len (dfs : Nat) (c : spi_context) (h : c.rx_len = 0) :
    ∀ n, update_rx_times n c dfs = some c := by
  intro n
  induction n with
  | zero => rfl
  | succ n ih => simp [update_rx_times, update_rx_zero c dfs h, ih]

theorem update_tx_keeps_rx (c c' : spi_context) (dfs : Nat)
    (h : spi_context_update_tx c dfs = some c') :
    c'.current_rx = c.current_rx ∧ c'.rx_buf = c.rx_buf ∧ c'.rx_len = c.rx_len ∧
      c'.config = c.config := by
  unfold spi_context_update_tx at h
  by_cases h0 : c.tx_len = 0
  · simp only [h0, if_true, Option.some.injEq] at h
    subst h
    exact ⟨rfl, rfl, rfl, rfl⟩
  · simp only [h0, if_false] at h
    by_cases h1 : c.tx_len - 1 = 0
    · simp only [h1, if_true] at h
      split at h
      · exact absurd h (by simp)
      · split at h
        · exact absurd h (by simp)
        · simp only [Option.some.injEq] at h
          subst h
          exact ⟨rfl, rfl, rfl, rfl⟩
      · simp only [Option.some.injEq] at h
        subst h
        exact ⟨rfl, rfl, rfl, rfl⟩
    · simp only [h1, if_false] at h
      split at h <;>
        · simp only [Option.some.injEq] at h
          subst h
          exact ⟨rfl, rfl, rfl, rfl⟩

theorem update_rx_keeps_tx (c c' : spi_context) (dfs : Nat)
    (h : spi_context_update_rx c dfs = some c') :
    c'.current_tx = c.current_tx ∧ c'.tx_buf = c.tx_buf ∧ c'.tx_len = c.tx_len ∧
      c'.config = c.config := by
  unfold spi_context_update_rx at h
  by_cases h0 : c.rx_len = 0
  · simp only [h0, if_true, Option.some.injEq] at h
    subst h
    exact ⟨rfl, rfl, rfl, rfl⟩
  · simp only [h0, if_false] at h
    by_cases h1 : c.rx_len - 1 = 0
    · simp only [h1, if_true] at h
      split at h
      · exact absurd h (by simp)
      · split at h
        · exact absurd h (by simp)
        · simp only [Option.some.injEq] at h
          subst h
          exact ⟨rfl, rfl, rfl, rfl⟩
      · simp only [Option.some.injEq] at h
        subst h
        exact ⟨rfl, rfl, rfl, rfl⟩
    · simp only [h1, if_false] at h
      split at h <;>
        · simp only [Option.some.injEq] at h
          subst h
          exact ⟨rfl, rfl, rfl, rfl⟩

theorem tx_on_eq_false_iff (c : spi_context) :
    spi_context_tx_on c = false ↔ c.tx_buf = 0 ∧ c.tx_len = 0 := by
  simp [spi_context_tx_on]

theorem rx_on_eq_false_iff (c : spi_context) :
    spi_context_rx_on c = false ↔ c.rx_buf = 0 ∧ c.rx_len = 0 := by
  simp [spi_context_rx_on]

theorem run_updates_tx_off (dfs : Nat) :
    ∀ (calls : List update_call) (ctx c : spi_context), spi_context_tx_on ctx = false →
      run_updates calls ctx dfs = some c → spi_context_tx_on c = false := by
  intro calls
  induction calls with
  | nil =>
    intro ctx c hoff h
    simp only [run_updates, Option.some.injEq] at h
    subst h
    exact hoff
  | cons call calls ih =>
    intro ctx c hoff h
    cases call with
    | tx =>
      have hz := update_tx_zero ctx dfs ((tx_on_eq_false_iff ctx).mp hoff).2
      simp only [run_updates, hz] at h
      exact ih ctx c hoff h
    | rx =>
      cases hstep : spi_context_update_rx ctx dfs with
      | none => simp [run_updates, hstep] at h
      | some c1 =>
        simp only [run_updates, hstep] at h
        obtain ⟨-, hb, hl, -⟩ := update_rx_keeps_tx ctx c1 dfs hstep
        have hoff1 : spi_context_tx_on c1 = false := by
          rw [tx_on_eq_false_iff] at hoff ⊢
          rw [hb, hl]
          exact hoff
        exact ih c1 c hoff1 h

theorem run_updates_rx_off (dfs : Nat) :
    ∀ (calls : List update_call) (ctx c : spi_context), spi_context_rx_on ctx = false →
      run_updates calls ctx dfs = some c → spi_context_rx_on c = false := by
  intro calls
  induction calls with
  | nil =>
    intro ctx c hoff h
    simp only [run_updates, Option.some.injEq] at h
    subst h
    exact hoff
  | cons call calls ih =>
    intro ctx c hoff h
    cases call with
    | rx =>
      have hz := update_rx_zero ctx dfs ((rx_on_eq_false_iff ctx).mp hoff).2
      simp only [run_updates, hz] at h
      exact ih ctx c hoff h
    | tx =>
      cases hstep : spi_context_update_tx ctx dfs with
      | none => simp [run_updates, hstep] at h
      | some c1 =>
        simp only [run_updates, hstep] at h
        obtain ⟨-, hb, hl, -⟩ := update_tx_keeps_rx ctx c1 dfs hstep
        have hoff1 : spi_context_rx_on c1 = false := by
          rw [rx_on_eq_false_iff] at hoff ⊢
          rw [hb, hl]
          exact hoff
        exact ih c1 c hoff1 h

theorem run_updates_both_off (dfs : Nat) (ctx : spi_context)
    (htx : ctx.tx_len = 0) (hrx : ctx.rx_len = 0) :
    ∀ calls : List update_call, run_updates calls ctx dfs = some ctx := by
  intro calls
  induction calls with
  | nil => rfl
  | cons call calls ih =>
    cases call with
    | tx => simp only [run_updates, update_tx_zero ctx dfs htx, ih]
    | rx => simp only [run_updates, update_rx_zero ctx dfs hrx, ih]

/-! ## Symmetry of the two sides -/

theorem update_rx_eq_swap (c : spi_context) (dfs : Nat) :
    spi_context_update_rx c dfs = (spi_context_update_tx (swap_sides c) dfs).map swap_sides := by
  unfold spi_context_update_rx spi_context_update_tx
  by_cases h0 : c.rx_len = 0
  · obtain ⟨cfg, ct, cr, tb, tl, rb, rl⟩ := c
    simp only at h0
    subst h0
    simp [swap_sides]
  · by_cases h1 : c.rx_len - 1 = 0
    · simp only [swap_sides, h0, h1, if_true, if_false]
      cases c.current_rx.next.deref with
      | none => rfl
      | some e =>
        cases e with
        | none => rfl
        | some b =>
          simp only
          cases frame_count b.len dfs <;> rfl
    · by_cases hb : c.rx_buf = 0 <;> simp [swap_sides, h0, h1, hb]

/-! ## The invariant of a transaction -/

theorem array_read_descriptor (L : List spi_buf) (rest : List (Option spi_buf)) (i : Nat)
    (b : spi_buf) (h : L[i]? = some b) :
    (spi_buf_ptr.mk (L.map some ++ none :: rest) i).deref = some (some b) := by
  have hi : i < L.length := by
    by_contra hge
    rw [List.getElem?_eq_none (by omega)] at h
    exact absurd h (by simp)
  have hl : i < (L.map some).length := by simpa using hi
  simp only [spi_buf_ptr.deref]
  rw [List.getElem?_append_left hl]
  simp [h]

theorem side_inv_head (L : List spi_buf) (rest : List (Option spi_buf)) (dfs : Nat) :
    side_inv L rest dfs (buf_array L rest) (head_buf L) (head_len dfs L) := by
  cases L with
  | nil => simp [side_inv, buf_array, head_buf, head_len]
  | cons b L =>
    by_cases hb : b.buf = 0 <;> simp [side_inv, buf_array, head_buf, head_len, hb]

theorem update_tx_side_inv (L : List spi_buf) (rest : List (Option spi_buf)) (dfs : Nat)
    (hd : 0 < dfs) (c : spi_context)
    (h : side_inv L rest dfs c.current_tx c.tx_buf c.tx_len) :
    ∃ c', spi_context_update_tx c dfs = some c' ∧
      side_inv L rest dfs c'.current_tx c'.tx_buf c'.tx_len := by
  obtain ⟨harr, hcase⟩ := h
  rcases Nat.lt_trichotomy c.tx_len 1 with hlt | h1 | hgt
  · have h0 : c.tx_len = 0 := by omega
    exact ⟨c, update_tx_zero c dfs h0, harr, hcase⟩
  · cases hcur : L[c.current_tx.idx]? with
    | none =>
      rw [hcur] at hcase
      omega
    | some b =>
      have hidx : c.current_tx.idx < L.length := by
        by_contra hge
        rw [List.getElem?_eq_none (by omega)] at hcur
        exact absurd hcur (by simp)
      have hnextptr : c.current_tx.next
          = ⟨L.map some ++ none :: rest, c.current_tx.idx + 1⟩ := by
        simp [spi_buf_ptr.next, harr]
      cases hnx : L[c.current_tx.idx + 1]? with
      | none =>
        have hlen : c.current_tx.idx + 1 = L.length := by
          have := List.getElem?_eq_none_iff.mp hnx
          omega
        have hder : c.current_tx.next.deref = some none := by
          rw [hnextptr, hlen]
          exact buf_array_deref_end L rest
        refine ⟨_, update_tx_end c dfs h1 hder, ?_, ?_⟩
        · simp [spi_buf_ptr.next, harr]
        · simp only [spi_buf_ptr.next, hnx]
          simpa using hlen
      | some b2 =>
        have hder : c.current_tx.next.deref = some (some b2) := by
          rw [hnextptr]
          exact array_read_descriptor L rest _ b2 hnx
        refine ⟨_, update_tx_load c dfs b2 h1 hd hder, ?_, ?_⟩
        · simp [spi_buf_ptr.next, harr]
        · simp only [spi_buf_ptr.next, hnx]
          refine ⟨le_refl _, fun h => h, ?_⟩
          by_cases hb : b2.buf = 0 <;> simp [hb]
  · obtain ⟨n, hn⟩ : ∃ n, c.tx_len = n + 2 := ⟨c.tx_len - 2, by omega⟩
    refine ⟨_, update_tx_within c dfs n hn, harr, ?_⟩
    cases hcur : L[c.current_tx.idx]? with
    | none =>
      rw [hcur] at hcase
      omega
    | some b =>
      rw [hcur] at hcase
      obtain ⟨hle, -, hbuf⟩ := hcase
      simp only
      refine ⟨by omega, fun h => absurd h (by omega), ?_⟩
      by_cases hb : b.buf = 0
      · simp [hb] at hbuf ⊢
        simp [hbuf]
      · simp only [hb, if_false] at hbuf ⊢
        have hne : c.tx_buf ≠ 0 := by rw [hbuf]; omega
        have : b.len / dfs - (n + 1) = (b.len / dfs - c.tx_len) + 1 := by omega
        rw [if_neg hne, this, Nat.add_mul, hbuf]
        omega

theorem update_tx_transfer_inv (L R : List spi_buf) (restT restR : List (Option spi_buf))
    (dfs : Nat) (hd : 0 < dfs) (c : spi_context) (h : transfer_inv L R restT restR dfs c) :
    ∃ c', spi_context_update_tx c dfs = some c' ∧ transfer_inv L R restT restR dfs c' := by
  obtain ⟨c', hc', hinv⟩ := update_tx_side_inv L restT dfs hd c h.1
  obtain ⟨hcur, hbuf, hlen, -⟩ := update_tx_keeps_rx c c' dfs hc'
  refine ⟨c', hc', hinv, ?_⟩
  rw [hcur, hbuf, hlen]
  exact h.2

theorem update_rx_transfer_inv (L R : List spi_buf) (restT restR : List (Option spi_buf))
    (dfs : Nat) (hd : 0 < dfs) (c : spi_context) (h : transfer_inv L R restT restR dfs c) :
    ∃ c', spi_context_update_rx c dfs = some c' ∧ transfer_inv L R restT restR dfs c' := by
  obtain ⟨c2, hc2, hinv⟩ := update_tx_side_inv R restR dfs hd (swap_sides c) h.2
  have hstep : spi_context_update_rx c dfs = some (swap_sides c2) := by
    rw [update_rx_eq_swap, hc2]
    rfl
  obtain ⟨hcur, hbuf, hlen, -⟩ := update_rx_keeps_tx c _ dfs hstep
  refine ⟨swap_sides c2, hstep, ?_, hinv⟩
  rw [hcur, hbuf, hlen]
  exact h.1

theorem run_updates_transfer_inv (L R : List spi_buf) (restT restR : List (Option spi_buf))
    (dfs : Nat) (hd : 0 < dfs) :
    ∀ (calls : List update_call) (c : spi_context), transfer_inv L R restT restR dfs c →
      ∃ c', run_updates calls c dfs = some c' ∧ transfer_inv L R restT restR dfs c' := by
  intro calls
  induction calls with
  | nil => intro c h; exact ⟨c, rfl, h⟩
  | cons call calls ih =>
    intro c h
    cases call with
    | tx =>
      obtain ⟨c1, hc1, h1⟩ := update_tx_transfer_inv L R restT restR dfs hd c h
      obtain ⟨c2, hc2, h2⟩ := ih c1 h1
      exact ⟨c2, by simp only [run_updates, hc1, hc2], h2⟩
    | rx =>
      obtain ⟨c1, hc1, h1⟩ := update_rx_transfer_inv L R restT restR dfs hd c h
      obtain ⟨c2, hc2, h2⟩ := ih c1 h1
      exact ⟨c2, by simp only [run_updates, hc1, hc2], h2⟩

theorem buffers_setup_transfer_inv (ctx : spi_context) (L R : List spi_buf)
    (restT restR : List (Option spi_buf)) (dfs : Nat) (hd : 0 < dfs) :
    ∃ s, spi_context_buffers_setup ctx (buf_array L restT) (buf_array R restR) dfs = some s ∧
      transfer_inv L R restT restR dfs s ∧
      s = { config := ctx.config, current_tx := buf_array L restT,
            current_rx := buf_array R restR,
            tx_buf := head_buf L, tx_len := head_len dfs L,
            rx_buf := head_buf R, rx_len := head_len dfs R } :=
  ⟨_, buffers_setup_buf_array ctx L R restT restR dfs hd,
    ⟨side_inv_head L restT dfs, side_inv_head R restR dfs⟩, rfl⟩

theorem side_inv_zero (L : List spi_buf) (rest : List (Option spi_buf)) (dfs : Nat)
    (cur : spi_buf_ptr) (buf : Nat) (h : side_inv L rest dfs cur buf 0) :
    cur.deref = some none ∨
      ∃ b, cur.deref = some (some b) ∧ b ∈ L ∧ b.len / dfs = 0 := by
  obtain ⟨harr, hcase⟩ := h
  have hcur : cur = ⟨L.map some ++ none :: rest, cur.idx⟩ := by
    cases cur
    simp_all
  cases hget : L[cur.idx]? with
  | none =>
    rw [hget] at hcase
    left
    rw [hcur, hcase.1]
    exact buf_array_deref_end L rest
  | some b =>
    rw [hget] at hcase
    right
    refine ⟨b, ?_, List.getElem?_mem hget, hcase.2.1 rfl⟩
    rw [hcur]
    exact array_read_descriptor L rest _ b hget

/-! ## Each advance works on its own side -/

theorem update_tx_eq_side_update (c : spi_context) (dfs : Nat) :
    spi_context_update_tx c dfs =
      (side_update c.current_tx c.tx_buf c.tx_len dfs).map
        (fun r => { c with current_tx := r.1, tx_buf := r.2.1, tx_len := r.2.2 }) := by
  unfold spi_context_update_tx side_update
  by_cases h0 : c.tx_len = 0
  · obtain ⟨cfg, ct, cr, tb, tl, rb, rl⟩ := c
    simp only at h0
    subst h0
    simp
  · by_cases h1 : c.tx_len - 1 = 0
    · simp only [h0, h1, if_true, if_false]
      cases c.current_tx.next.deref with
      | none => rfl
      | some e =>
        cases e with
        | none => simp [h1]
        | some b =>
          simp only
          cases frame_count b.len dfs <;> rfl
    · by_cases hb : c.tx_buf = 0 <;> simp [h0, h1, hb]

theorem update_rx_eq_side_update (c : spi_context) (dfs : Nat) :
    spi_context_update_rx c dfs =
      (side_update c.current_rx c.rx_buf c.rx_len dfs).map
        (fun r => { c with current_rx := r.1, rx_buf := r.2.1, rx_len := r.2.2 }) := by
  unfold spi_context_update_rx side_update
  by_cases h0 : c.rx_len = 0
  · obtain ⟨cfg, ct, cr, tb, tl, rb, rl⟩ := c
    simp only at h0
    subst h0
    simp
  · by_cases h1 : c.rx_len - 1 = 0
    · simp only [h0, h1, if_true, if_false]
      cases c.current_rx.next.deref with
      | none => rfl
      | some e =>
        cases e with
        | none => simp [h1]
        | some b =>
          simp only
          cases frame_count b.len dfs <;> rfl
    · by_cases hb : c.rx_buf = 0 <;> simp [h0, h1, hb]

theorem update_tx_rx_comm (c : spi_context) (dfs : Nat) :
    (spi_context_update_rx c dfs).bind (fun d => spi_context_update_tx d dfs) =
      (spi_context_update_tx c dfs).bind (fun d => spi_context_update_rx d dfs) := by
  rw [update_rx_eq_side_update c, update_tx_eq_side_update c]
  cases hr : side_update c.current_rx c.rx_buf c.rx_len dfs with
  | none =>
    cases ht : side_update c.current_tx c.tx_buf c.tx_len dfs with
    | none => rfl
    | some t => simp [update_rx_eq_side_update, hr]
  | some r =>
    cases ht : side_update c.current_tx c.tx_buf c.tx_len dfs with
    | none => simp [update_tx_eq_side_update, ht]
    | some t => simp [update_tx_eq_side_update, update_rx_eq_side_update, hr, ht]

/-! ## Runs of transmit advances -/

theorem update_tx_times_add (dfs : Nat) :
    ∀ (a m : Nat) (c : spi_context),
      update_tx_times (a + m) c dfs =
        (update_tx_times a c dfs).bind (fun d => update_tx_times m d dfs) := by
  intro a
  induction a with
  | zero => intro m c; simp [update_tx_times]
  | succ a ih =>
    intro m c
    rw [show a + 1 + m = (a + m) + 1 by omega]
    simp only [update_tx_times]
    cases spi_context_update_tx c dfs with
    | none => rfl
    | some d => exact ih m d

theorem update_tx_times_side_inv (L : List spi_buf) (rest : List (Option spi_buf))
    (dfs : Nat) (hd : 0 < dfs) :
    ∀ (n : Nat) (c : spi_context), side_inv L rest dfs c.current_tx c.tx_buf c.tx_len →
      ∃ c', update_tx_times n c dfs = some c' ∧
        side_inv L rest dfs c'.current_tx c'.tx_buf c'.tx_len := by
  intro n
  induction n with
  | zero => intro c h; exact ⟨c, rfl, h⟩
  | succ n ih =>
    intro c h
    obtain ⟨c1, hc1, h1⟩ := update_tx_side_inv L rest dfs hd c h
    obtain ⟨c2, hc2, h2⟩ := ih c1 h1
    exact ⟨c2, by simp only [update_tx_times, hc1, hc2], h2⟩

theorem update_tx_times_segment (dfs : Nat) (c' : spi_context) :
    ∀ (n : Nat) (c : spi_context), c.tx_len = n + 1 → tx_leave_segment c dfs = some c' →
      update_tx_times (n + 1) c dfs = some c' := by
  intro n
  induction n with
  | zero =>
    intro c hlen hnext
    simp [update_tx_times, update_tx_last c dfs hlen, hnext]
  | succ n ih =>
    intro c hlen hnext
    have hstep := update_tx_within c dfs n hlen
    have hih := ih { c with tx_len := n + 1,
                            tx_buf := if c.tx_buf = 0 then 0 else c.tx_buf + dfs } rfl
      (by simpa [tx_leave_segment] using hnext)
    rw [show n + 1 + 1 = (n + 1) + 1 by rfl]
    conv_lhs => unfold update_tx_times
    simp only [hstep]
    exact hih

theorem update_tx_times_prefix (dfs : Nat) (hd : 0 < dfs) (rest : List (Option spi_buf))
    (tail : List spi_buf) :
    ∀ (pre pre0 : List spi_buf) (c : spi_context),
      c.current_tx = ⟨(pre0 ++ (pre ++ tail)).map some ++ none :: rest, pre0.length⟩ →
      c.tx_buf = head_buf (pre ++ tail) → c.tx_len = head_len dfs (pre ++ tail) →
      (∀ x ∈ pre, 1 ≤ x.len / dfs) →
        update_tx_times (total_frames dfs pre) c dfs =
          some { c with current_tx := ⟨(pre0 ++ (pre ++ tail)).map some ++ none :: rest,
                                        (pre0 ++ pre).length⟩,
                        tx_buf := head_buf tail, tx_len := head_len dfs tail } := by
  intro pre
  induction pre with
  | nil =>
    intro pre0 c hcur hbuf hlen _
    obtain ⟨cfg, ct, cr, tb, tl, rb, rl⟩ := c
    simp only [List.nil_append] at hcur hbuf hlen
    subst hcur hbuf hlen
    simp [total_frames, update_tx_times]
  | cons b pre ih =>
    intro pre0 c hcur hbuf hlen hall
    have hb : 1 ≤ b.len / dfs := hall b (List.mem_cons_self _ _)
    obtain ⟨n, hn⟩ : ∃ n, b.len / dfs = n + 1 := ⟨b.len / dfs - 1, by omega⟩
    have htot : total_frames dfs (b :: pre) = (n + 1) + total_frames dfs pre := by
      simp [total_frames, hn]
    have hlen2 : c.tx_len = n + 1 := by rw [hlen]; simpa [head_len] using hn
    have harrive := tx_leave_segment_arrive dfs hd rest pre0 b (pre ++ tail) c
      (by simpa using hcur)
    have hseg := update_tx_times_segment dfs _ n c hlen2 harrive
    rw [htot, update_tx_times_add, hseg]
    simp only [Option.some_bind]
    have hih := ih (pre0 ++ [b])
      { c with current_tx := ⟨((pre0 ++ [b]) ++ (pre ++ tail)).map some ++ none :: rest,
                               (pre0 ++ [b]).length⟩,
               tx_buf := head_buf (pre ++ tail), tx_len := head_len dfs (pre ++ tail) }
      rfl rfl rfl (fun x hx => hall x (List.mem_cons_of_mem _ hx))
    rw [hih]
    simp

/-! ## Arrays given by the position of their first `NULL` entry -/

theorem array_of_first_null :
    ∀ (n : Nat) (arr : List (Option spi_buf)),
      (∀ i, i < n → ∃ b, arr[i]? = some (some b)) → arr[n]? = some none →
        ∃ (L : List spi_buf) (rest : List (Option spi_buf)),
          arr = L.map some ++ none :: rest ∧ L.length = n := by
  intro n
  induction n with
  | zero =>
    intro arr _ hn
    cases arr with
    | nil => simp at hn
    | cons e rest =>
      simp only [List.getElem?_cons_zero, Option.some.injEq] at hn
      exact ⟨[], rest, by simp [hn], rfl⟩
  | succ n ih =>
    intro arr hfirst hn
    cases arr with
    | nil => simp at hn
    | cons e arr2 =>
      obtain ⟨b, hb⟩ := hfirst 0 (Nat.succ_pos n)
      simp only [List.getElem?_cons_zero, Option.some.injEq] at hb
      obtain ⟨L, rest, harr, hlen⟩ := ih arr2
        (fun i hi => by simpa using hfirst (i + 1) (by omega))
        (by simpa using hn)
      exact ⟨b :: L, rest, by simp [hb, harr], by simp [hlen]⟩

/-! ## The claims -/

/-- C1 (as amended): for every transmit list whose descriptors all hold at
least one whole frame (`len/dfs >= 1`) and every frame size `dfs > 0`, after
`spi_context_buffers_setup` the transmit side is on during exactly
`sum (len/dfs)` calls of `spi_context_update_tx`: it is on after setup and
after each of the first `sum - 1` calls, and off after call number `sum`. -/
theorem tx_update_count_eq_total_frames (ctx : spi_context) (L R : List spi_buf)
    (restT restR : List (Option spi_buf)) (dfs : Nat) (hd : 0 < dfs)
    (hL : ∀ b ∈ L, 1 ≤ b.len / dfs) :
    ∃ s, spi_context_buffers_setup ctx (buf_array L restT) (buf_array R restR) dfs = some s ∧
      tx_off_after s dfs (total_frames dfs L) := by
  obtain ⟨s, hs, hloop⟩ := tx_loop_after_setup ctx L R restT restR dfs hd hL
  refine ⟨s, hs, ?_⟩
  have h := (tx_loop_spec dfs _ _ _ _ (hloop (total_frames dfs L + 1) (Nat.lt_succ_self _))).1
  rwa [length_flatMap_segment_frames] at h

/-- Witness of C1 (as amended): two descriptors of two frames and one frame
with frame size 4. -/
theorem tx_update_count_eq_total_frames_witness :
    0 < 4 ∧ (∀ b ∈ [spi_buf.mk 1000 8, spi_buf.mk 2000 4], 1 ≤ b.len / 4) ∧
      ∃ s, spi_context_buffers_setup idle_context
          (buf_array [spi_buf.mk 1000 8, spi_buf.mk 2000 4] []) (buf_array [] []) 4 = some s ∧
        tx_off_after s 4 3 :=
  ⟨by decide, by decide,
    tx_update_count_eq_total_frames idle_context [spi_buf.mk 1000 8, spi_buf.mk 2000 4] []
      [] [] 4 (by decide) (by decide)⟩

/-- C1 fails as stated: with frame size 1 and the list of a one-byte
descriptor, an empty descriptor with a present pointer and a second one-byte
descriptor, the sum of `len/dfs` is 2, yet the transmit side is still on after
any number of calls of `spi_context_update_tx`; no call count turns it off. -/
theorem tx_update_count_counterexample :
    ∃ s, spi_context_buffers_setup idle_context
        (buf_array [spi_buf.mk 100 1, spi_buf.mk 200 0, spi_buf.mk 300 1] [])
        (buf_array [] []) 1 = some s ∧
      total_frames 1 [spi_buf.mk 100 1, spi_buf.mk 200 0, spi_buf.mk 300 1] = 2 ∧
      ∀ n, ¬ tx_off_after s 1 n := by
  refine ⟨⟨0, ⟨[some ⟨100, 1⟩, some ⟨200, 0⟩, some ⟨300, 1⟩, none], 0⟩, ⟨[none], 0⟩,
    100, 1, 0, 0⟩, by decide, by decide, ?_⟩
  have hstep : spi_context_update_tx
      ⟨0, ⟨[some ⟨100, 1⟩, some ⟨200, 0⟩, some ⟨300, 1⟩, none], 0⟩, ⟨[none], 0⟩, 100, 1, 0, 0⟩ 1
      = some ⟨0, ⟨[some ⟨100, 1⟩, some ⟨200, 0⟩, some ⟨300, 1⟩, none], 1⟩, ⟨[none], 0⟩,
          200, 0, 0, 0⟩ := by decide
  intro n hn
  obtain ⟨c, hc, hoff⟩ := hn.2
  cases n with
  | zero =>
    simp only [update_tx_times, Option.some.injEq] at hc
    subst hc
    revert hoff
    decide
  | succ n =>
    simp only [update_tx_times, hstep] at hc
    rw [update_tx_times_zero_len 1 _ rfl n] at hc
    simp only [Option.some.injEq] at hc
    subst hc
    revert hoff
    decide

/-- C2: for every frame size `dfs > 0` and every transmit list whose
descriptors all hold a whole frame, the byte pointers seen in `tx_buf` by the
transmit loop (after setup and after each call of `spi_context_update_tx`,
while `spi_context_tx_on` is true) are the concatenation, in list order, of
each descriptor's frames `buf, buf + dfs, ..., buf + (len/dfs - 1) * dfs` (the
absent pointer `len/dfs` times for a descriptor without pointer); the `k`-th
of them is `tx_buf` after `k` calls, and after the last one the transmit side
is off.  In particular the list `[{A, 2 dfs}, {B, dfs}]` gives `A, A + dfs, B`. -/
theorem tx_loop_stitches_segments (ctx : spi_context) (R : List spi_buf)
    (restT restR : List (Option spi_buf)) (dfs : Nat) (hd : 0 < dfs) :
    (∀ L : List spi_buf, (∀ b ∈ L, 1 ≤ b.len / dfs) →
      ∃ s, spi_context_buffers_setup ctx (buf_array L restT) (buf_array R restR) dfs
            = some s ∧
        (∀ fuel, total_frames dfs L < fuel →
          ∃ last, tx_loop fuel s dfs = some (L.flatMap (segment_frames dfs), last) ∧
            spi_context_tx_on last = false) ∧
        (∀ k, k < total_frames dfs L →
          ∃ c, update_tx_times k s dfs = some c ∧ spi_context_tx_on c = true ∧
            (L.flatMap (segment_frames dfs))[k]? = some c.tx_buf) ∧
        ∃ c, update_tx_times (total_frames dfs L) s dfs = some c ∧
          spi_context_tx_on c = false) ∧
    (∀ A B : Nat, A ≠ 0 → B ≠ 0 →
      ∃ s last, spi_context_buffers_setup ctx
            (buf_array [spi_buf.mk A (2 * dfs), spi_buf.mk B dfs] restT)
            (buf_array R restR) dfs = some s ∧
        tx_loop 4 s dfs = some ([A, A + dfs, B], last) ∧
        spi_context_tx_on last = false) := by
  have main : ∀ L : List spi_buf, (∀ b ∈ L, 1 ≤ b.len / dfs) →
      ∃ s, spi_context_buffers_setup ctx (buf_array L restT) (buf_array R restR) dfs
            = some s ∧
        (∀ fuel, total_frames dfs L < fuel →
          ∃ last, tx_loop fuel s dfs = some (L.flatMap (segment_frames dfs), last) ∧
            spi_context_tx_on last = false) ∧
        (∀ k, k < total_frames dfs L →
          ∃ c, update_tx_times k s dfs = some c ∧ spi_context_tx_on c = true ∧
            (L.flatMap (segment_frames dfs))[k]? = some c.tx_buf) ∧
        ∃ c, update_tx_times (total_frames dfs L) s dfs = some c ∧
          spi_context_tx_on c = false := by
    intro L hL
    obtain ⟨s, hs, hloop⟩ := tx_loop_after_setup ctx L R restT restR dfs hd hL
    have hrun := hloop (total_frames dfs L + 1) (Nat.lt_succ_self _)
    have hspec := tx_loop_spec dfs _ _ _ _ hrun
    have hseen := tx_loop_seen dfs _ _ _ _ hrun
    rw [length_flatMap_segment_frames] at hspec
    refine ⟨s, hs, ?_, ?_, hspec.1.2⟩
    · intro fuel hfuel
      exact ⟨_, hloop fuel hfuel, rfl⟩
    · intro k hk
      obtain ⟨c, hc, hon⟩ := hspec.1.1 k hk
      exact ⟨c, hc, hon, hseen k c (by rwa [length_flatMap_segment_frames]) hc⟩
  refine ⟨main, ?_⟩
  intro A B hA hB
  have h2 : 2 * dfs / dfs = 2 := Nat.mul_div_cancel 2 hd
  have h1 : dfs / dfs = 1 := Nat.div_self hd
  have hL : ∀ b ∈ [spi_buf.mk A (2 * dfs), spi_buf.mk B dfs], 1 ≤ b.len / dfs := by
    intro b hb
    simp only [List.mem_cons, List.mem_singleton, List.not_mem_nil, or_false] at hb
    rcases hb with rfl | rfl
    · simp [h2]
    · simp [h1]
  obtain ⟨s, hs, hloop, -, -⟩ := main _ hL
  have htot : total_frames dfs [spi_buf.mk A (2 * dfs), spi_buf.mk B dfs] = 3 := by
    simp [total_frames, h2, h1]
  obtain ⟨last, hlast, hoff⟩ := hloop 4 (by omega)
  refine ⟨s, last, hs, ?_, hoff⟩
  rw [hlast]
  simp [segment_frames, h2, h1, hA, hB, List.range_succ]

/-- Witness of C2: two frames at 1000 and one at 2000 with frame size 4. -/
theorem tx_loop_stitches_segments_witness :
    0 < 4 ∧ (∀ b ∈ [spi_buf.mk 1000 8, spi_buf.mk 2000 4], 1 ≤ b.len / 4) ∧
      (1000 ≠ 0 ∧ 2000 ≠ 0) ∧
      (∃ s, spi_context_buffers_setup idle_context
          (buf_array [spi_buf.mk 1000 8, spi_buf.mk 2000 4] []) (buf_array [] []) 4 = some s ∧
        (∀ fuel, 3 < fuel →
          ∃ last, tx_loop fuel s 4 = some ([1000, 1004, 2000], last) ∧
            spi_context_tx_on last = false) ∧
        (∀ k, k < 3 →
          ∃ c, update_tx_times k s 4 = some c ∧ spi_context_tx_on c = true ∧
            [1000, 1004, 2000][k]? = some c.tx_buf) ∧
        ∃ c, update_tx_times 3 s 4 = some c ∧ spi_context_tx_on c = false) ∧
      ∃ s last, spi_context_buffers_setup idle_context
          (buf_array [spi_buf.mk 1000 (2 * 4), spi_buf.mk 2000 4] []) (buf_array [] []) 4
            = some s ∧
        tx_loop 4 s 4 = some ([1000, 1000 + 4, 2000], last) ∧
        spi_context_tx_on last = false :=
  ⟨by decide, by decide, ⟨by decide, by decide⟩,
    (tx_loop_stitches_segments idle_context [] [] [] 4 (by decide)).1
      [spi_buf.mk 1000 8, spi_buf.mk 2000 4] (by decide),
    (tx_loop_stitches_segments idle_context [] [] [] 4 (by decide)).2 1000 2000
      (by decide) (by decide)⟩

/-- C3: for every context and frame size, `spi_context_update_tx` with
`tx_len = 0` returns the context unchanged in every field, and so does
`spi_context_update_rx` with `rx_len = 0`.  Hence once `spi_context_tx_on` is
false, any number of `spi_context_update_tx` calls returns the same context
and the transmit side is off in every context that a sequence of
`update_tx`/`update_rx` calls produces; the same holds for the receive side;
with both sides off every such sequence returns the context itself. -/
theorem update_noop_at_zero (ctx : spi_context) (dfs : Nat) :
    (ctx.tx_len = 0 → spi_context_update_tx ctx dfs = some ctx) ∧
    (ctx.rx_len = 0 → spi_context_update_rx ctx dfs = some ctx) ∧
    (spi_context_tx_on ctx = false →
      (∀ n, update_tx_times n ctx dfs = some ctx) ∧
      ∀ calls c, run_updates calls ctx dfs = some c → spi_context_tx_on c = false) ∧
    (spi_context_rx_on ctx = false →
      (∀ n, update_rx_times n ctx dfs = some ctx) ∧
      ∀ calls c, run_updates calls ctx dfs = some c → spi_context_rx_on c = false) ∧
    (spi_context_tx_on ctx = false → spi_context_rx_on ctx = false →
      ∀ calls, run_updates calls ctx dfs = some ctx) := by
  refine ⟨update_tx_zero ctx dfs, update_rx_zero ctx dfs, ?_, ?_, ?_⟩
  · intro hoff
    exact ⟨update_tx_times_zero_len dfs ctx ((tx_on_eq_false_iff ctx).mp hoff).2,
      fun calls c h => run_updates_tx_off dfs calls ctx c hoff h⟩
  · intro hoff
    exact ⟨update_rx_times_zero_len dfs ctx ((rx_on_eq_false_iff ctx).mp hoff).2,
      fun calls c h => run_updates_rx_off dfs calls ctx c hoff h⟩
  · intro htx hrx
    exact run_updates_both_off dfs ctx ((tx_on_eq_false_iff ctx).mp htx).2
      ((rx_on_eq_false_iff ctx).mp hrx).2

/-- Witness of C3: the context left by a finished two-frame transmission. -/
theorem update_noop_at_zero_witness :
    (exhausted_context.tx_len = 0 ∧ exhausted_context.rx_len = 0 ∧
      spi_context_tx_on exhausted_context = false ∧
      spi_context_rx_on exhausted_context = false ∧
      run_updates [update_call.tx, update_call.rx, update_call.tx] exhausted_context 1
        = some exhausted_context) ∧
    spi_context_update_tx exhausted_context 1 = some exhausted_context ∧
    spi_context_update_rx exhausted_context 1 = some exhausted_context ∧
    (∀ n, update_tx_times n exhausted_context 1 = some exhausted_context) ∧
    (∀ n, update_rx_times n exhausted_context 1 = some exhausted_context) ∧
    spi_context_tx_on exhausted_context = false ∧
    spi_context_rx_on exhausted_context = false ∧
    ∀ calls, run_updates calls exhausted_context 1 = some exhausted_context :=
  ⟨⟨by decide, by decide, by decide, by decide, by decide⟩,
    (update_noop_at_zero exhausted_context 1).1 (by decide),
    (update_noop_at_zero exhausted_context 1).2.1 (by decide),
    ((update_noop_at_zero exhausted_context 1).2.2.1 (by decide)).1,
    ((update_noop_at_zero exhausted_context 1).2.2.2.1 (by decide)).1,
    ((update_noop_at_zero exhausted_context 1).2.2.1 (by decide)).2
      [update_call.tx, update_call.rx, update_call.tx] exhausted_context (by decide),
    ((update_noop_at_zero exhausted_context 1).2.2.2.1 (by decide)).2
      [update_call.tx, update_call.rx, update_call.tx] exhausted_context (by decide),
    (update_noop_at_zero exhausted_context 1).2.2.2.2 (by decide) (by decide)⟩

/-- C4: for every context with `tx_len = 1` and every frame size `dfs > 0`,
`spi_context_update_tx` moves the transmit cursor forward by exactly one
entry.  If the entry there is a descriptor, the result has that descriptor's
pointer in `tx_buf` and its `len / dfs` in `tx_len`; if it is the terminating
`NULL` entry, the result has `tx_buf` absent and `tx_len = 0`, so
`spi_context_tx_on` is false.  Nothing else changes.  (The call is undefined
exactly when the cursor is moved outside the array.) -/
theorem update_tx_segment_boundary (ctx : spi_context) (dfs : Nat)
    (hlen : ctx.tx_len = 1) (hd : 0 < dfs) :
    (∀ c, spi_context_update_tx ctx dfs = some c →
      c.current_tx = ctx.current_tx.next ∧ c.current_tx.arr = ctx.current_tx.arr ∧
        c.current_tx.idx = ctx.current_tx.idx + 1) ∧
    (∀ b, ctx.current_tx.next.deref = some (some b) →
      spi_context_update_tx ctx dfs =
        some { ctx with current_tx := ctx.current_tx.next, tx_buf := b.buf,
                        tx_len := b.len / dfs }) ∧
    (ctx.current_tx.next.deref = some none →
      spi_context_update_tx ctx dfs =
          some { ctx with current_tx := ctx.current_tx.next, tx_buf := 0, tx_len := 0 } ∧
        spi_context_tx_on
          { ctx with current_tx := ctx.current_tx.next, tx_buf := 0, tx_len := 0 } = false) ∧
    (spi_context_update_tx ctx dfs = none ↔ ctx.current_tx.next.deref = none) := by
  have hload := update_tx_load ctx dfs
  have hend := update_tx_end ctx dfs hlen
  refine ⟨?_, fun b hb => hload b hlen hd hb, fun hn => ⟨hend hn, rfl⟩, ?_⟩
  · intro c hc
    cases hder : ctx.current_tx.next.deref with
    | none =>
      simp [spi_context_update_tx, hlen, hder] at hc
    | some e =>
      cases e with
      | none =>
        rw [hend hder, Option.some.injEq] at hc
        subst hc
        exact ⟨rfl, rfl, rfl⟩
      | some b =>
        rw [hload b hlen hd hder, Option.some.injEq] at hc
        subst hc
        exact ⟨rfl, rfl, rfl⟩
  · cases hder : ctx.current_tx.next.deref with
    | none => simp [spi_context_update_tx, hlen, hder]
    | some e =>
      cases e with
      | none => simp [hend hder]
      | some b => simp [hload b hlen hd hder]

/-- Witness of C4: the last frame of the first of two descriptors, and the
last frame of the only descriptor. -/
theorem update_tx_segment_boundary_witness :
    (mid_context.tx_len = 1 ∧ 0 < 4 ∧
      mid_context.current_tx.next.deref = some (some (spi_buf.mk 2000 4))) ∧
    spi_context_update_tx mid_context 4 =
      some { mid_context with current_tx := mid_context.current_tx.next, tx_buf := 2000,
                              tx_len := 1 } ∧
    (last_frame_context.tx_len = 1 ∧
      last_frame_context.current_tx.next.deref = some none) ∧
    spi_context_update_tx last_frame_context 4 = some exhausted_context :=
  ⟨⟨by decide, by decide, by decide⟩,
    (update_tx_segment_boundary mid_context 4 (by decide) (by decide)).2.1
      (spi_buf.mk 2000 4) (by decide),
    ⟨by decide, by decide⟩,
    ((update_tx_segment_boundary last_frame_context 4 (by decide) (by decide)).2.2.1
      (by decide)).1⟩

/-- C5: for every context with `tx_len = n > 1` and every frame size,
`spi_context_update_tx` returns a context with `tx_len = n - 1`, the transmit
cursor on the same entry, `tx_buf = p + dfs` when `tx_buf` was a present
pointer `p`, and `tx_buf` absent when it was absent; nothing else changes. -/
theorem update_tx_within_segment (ctx : spi_context) (dfs n : Nat) (hn : 1 < n)
    (hlen : ctx.tx_len = n) :
    ∃ c, spi_context_update_tx ctx dfs = some c ∧
      c.tx_len = n - 1 ∧ c.current_tx = ctx.current_tx ∧
      (∀ p, ctx.tx_buf = p → p ≠ 0 → c.tx_buf = p + dfs) ∧
      (ctx.tx_buf = 0 → c.tx_buf = 0) ∧
      c = { ctx with tx_len := n - 1,
                     tx_buf := if ctx.tx_buf = 0 then 0 else ctx.tx_buf + dfs } := by
  obtain ⟨m, rfl⟩ : ∃ m, n = m + 2 := ⟨n - 2, by omega⟩
  refine ⟨_, update_tx_within ctx dfs m hlen, rfl, rfl, ?_, ?_, rfl⟩
  · intro p hp hp0
    subst hp
    simp [hp0]
  · intro h0
    simp [h0]

/-- Witness of C5: the first of two frames of a descriptor at address 1000. -/
theorem update_tx_within_segment_witness :
    (1 < 2 ∧ armed_context.tx_len = 2) ∧
      ∃ c, spi_context_update_tx armed_context 4 = some c ∧
        c.tx_len = 2 - 1 ∧ c.current_tx = armed_context.current_tx ∧
        (∀ p, armed_context.tx_buf = p → p ≠ 0 → c.tx_buf = p + 4) ∧
        (armed_context.tx_buf = 0 → c.tx_buf = 0) ∧
        c = { armed_context with
              tx_len := 2 - 1,
              tx_buf := if armed_context.tx_buf = 0 then 0 else armed_context.tx_buf + 4 } :=
  ⟨⟨by decide, by decide⟩, update_tx_within_segment armed_context 4 2 (by decide) (by decide)⟩

/-- C6: for every transmit list, receive list and frame size `dfs > 0`,
`spi_context_buffers_setup` puts both cursors at the heads of their lists and,
for each side on its own: when the head entry is a descriptor, the byte
pointer is the descriptor's pointer and the remaining count is its
`len / dfs`; when the head entry is the terminating `NULL`, the byte pointer
is absent and the count is 0.  The configuration reference is kept. -/
theorem buffers_setup_loads_heads (ctx : spi_context) (tx_bufs rx_bufs : spi_buf_ptr)
    (dfs : Nat) (et er : Option spi_buf) (hd : 0 < dfs)
    (htx : tx_bufs.deref = some et) (hrx : rx_bufs.deref = some er) :
    ∃ s, spi_context_buffers_setup ctx tx_bufs rx_bufs dfs = some s ∧
      s.current_tx = tx_bufs ∧ s.current_rx = rx_bufs ∧
      (∀ b, et = some b → s.tx_buf = b.buf ∧ s.tx_len = b.len / dfs) ∧
      (et = none → s.tx_buf = 0 ∧ s.tx_len = 0) ∧
      (∀ b, er = some b → s.rx_buf = b.buf ∧ s.rx_len = b.len / dfs) ∧
      (er = none → s.rx_buf = 0 ∧ s.rx_len = 0) ∧
      s.config = ctx.config := by
  refine ⟨_, buffers_setup_eq ctx tx_bufs rx_bufs dfs et er hd htx hrx, rfl, rfl,
    ?_, ?_, ?_, ?_, rfl⟩
  · rintro b rfl
    exact ⟨rfl, rfl⟩
  · rintro rfl
    exact ⟨rfl, rfl⟩
  · rintro b rfl
    exact ⟨rfl, rfl⟩
  · rintro rfl
    exact ⟨rfl, rfl⟩

/-- Witness of C6: a transmit list of two descriptors and an empty receive
list, frame size 4, armed on a context that was used before. -/
theorem buffers_setup_loads_heads_witness :
    (0 < 4 ∧
      (buf_array [spi_buf.mk 1000 8, spi_buf.mk 2000 4] []).deref
        = some (some (spi_buf.mk 1000 8)) ∧
      (buf_array [] []).deref = some none) ∧
    ∃ s, spi_context_buffers_setup exhausted_context
        (buf_array [spi_buf.mk 1000 8, spi_buf.mk 2000 4] []) (buf_array [] []) 4 = some s ∧
      s.current_tx = buf_array [spi_buf.mk 1000 8, spi_buf.mk 2000 4] [] ∧
      s.current_rx = buf_array [] [] ∧
      (s.tx_buf = 1000 ∧ s.tx_len = 8 / 4) ∧ (s.rx_buf = 0 ∧ s.rx_len = 0) ∧
      s.config = exhausted_context.config := by
  refine ⟨⟨by decide, by decide, by decide⟩, ?_⟩
  obtain ⟨s, hs, h1, h2, h3, -, -, h6, h7⟩ :=
    buffers_setup_loads_heads exhausted_context
      (buf_array [spi_buf.mk 1000 8, spi_buf.mk 2000 4] []) (buf_array [] []) 4
      (some (spi_buf.mk 1000 8)) none (by decide) (by decide) (by decide)
  exact ⟨s, hs, h1, h2, h3 _ rfl, h6 rfl, h7⟩

/-- C7: for every context, `spi_context_tx_on` is true exactly when `tx_buf`
is present or `tx_len` is nonzero, and `spi_context_rx_on` is true exactly
when `rx_buf` is present or `rx_len` is nonzero.  Both only read the context:
they return the answer and nothing else. -/
theorem tx_on_rx_on_iff (ctx : spi_context) :
    (spi_context_tx_on ctx = true ↔ ctx.tx_buf ≠ 0 ∨ ctx.tx_len ≠ 0) ∧
    (spi_context_rx_on ctx = true ↔ ctx.rx_buf ≠ 0 ∨ ctx.rx_len ≠ 0) := by
  simp [spi_context_tx_on, spi_context_rx_on]

/-- C8: placeholder mode.  For every frame size `dfs > 0` and every `n >= 1`,
after `spi_context_buffers_setup` with the transmit list of the single
descriptor `{absent, n * dfs}`, the transmit side is on, with `tx_buf` absent,
after setup and after each of the first `n - 1` calls of
`spi_context_update_tx`, and it is off after the `n`-th call. -/
theorem placeholder_mode (ctx : spi_context) (R : List spi_buf)
    (restT restR : List (Option spi_buf)) (dfs n : Nat) (hd : 0 < dfs) (hn : 1 ≤ n) :
    ∃ s, spi_context_buffers_setup ctx (buf_array [spi_buf.mk 0 (n * dfs)] restT)
          (buf_array R restR) dfs = some s ∧
      (∀ k, k < n → ∃ c, update_tx_times k s dfs = some c ∧
        spi_context_tx_on c = true ∧ c.tx_buf = 0) ∧
      ∃ c, update_tx_times n s dfs = some c ∧ spi_context_tx_on c = false := by
  have hdiv : n * dfs / dfs = n := Nat.mul_div_cancel n hd
  have hL : ∀ b ∈ [spi_buf.mk 0 (n * dfs)], 1 ≤ b.len / dfs := by
    intro b hb
    simp only [List.mem_singleton] at hb
    subst hb
    simpa [hdiv] using hn
  have htot : total_frames dfs [spi_buf.mk 0 (n * dfs)] = n := by
    simp [total_frames, hdiv]
  obtain ⟨s, hs, hloop⟩ := tx_loop_after_setup ctx _ R restT restR dfs hd hL
  have hrun := hloop (n + 1) (by omega)
  have hspec := tx_loop_spec dfs _ _ _ _ hrun
  have hseen := tx_loop_seen dfs _ _ _ _ hrun
  have hlist : [spi_buf.mk 0 (n * dfs)].flatMap (segment_frames dfs)
      = (List.range n).map (fun _ => 0) := by
    simp [segment_frames, hdiv]
  rw [hlist] at hspec hseen
  simp only [List.length_map, List.length_range] at hspec hseen
  refine ⟨s, hs, ?_, hspec.1.2⟩
  intro k hk
  obtain ⟨c, hc, hon⟩ := hspec.1.1 k hk
  have hk0 := hseen k c hk hc
  refine ⟨c, hc, hon, ?_⟩
  rw [List.getElem?_map, List.getElem?_range hk] at hk0
  simpa using hk0.symm

/-- Witness of C8: the case `n = 3` of the specification, frame size 2. -/
theorem placeholder_mode_witness :
    (0 < 2 ∧ 1 ≤ 3) ∧
      ∃ s, spi_context_buffers_setup idle_context (buf_array [spi_buf.mk 0 (3 * 2)] [])
            (buf_array [] []) 2 = some s ∧
        (∀ k, k < 3 → ∃ c, update_tx_times k s 2 = some c ∧
          spi_context_tx_on c = true ∧ c.tx_buf = 0) ∧
        ∃ c, update_tx_times 3 s 2 = some c ∧ spi_context_tx_on c = false :=
  ⟨⟨by decide, by decide⟩, placeholder_mode idle_context [] [] [] 2 3 (by decide) (by decide)⟩

/-- C9: unidirectional transaction.  For every transmit list and frame size
`dfs > 0`, with an empty receive list `spi_context_rx_on` is false right after
`spi_context_buffers_setup`, every sequence of `update_tx` / `update_rx` calls
returns, and `spi_context_rx_on` is false after it.  With frame size 1 and the
transmit list `[{P, 2}, {Q, 1}]` of present pointers, exactly three
`update_tx` calls are made while `spi_context_tx_on` is true, the bytes
addressed are `P, P + 1, Q` in this order, and `spi_context_tx_on` is false
after the third call. -/
theorem unidirectional_transfer (ctx : spi_context)
    (restT restR : List (Option spi_buf)) :
    (∀ (L : List spi_buf) (dfs : Nat), 0 < dfs →
      ∃ s, spi_context_buffers_setup ctx (buf_array L restT) (buf_array [] restR) dfs
            = some s ∧
        spi_context_rx_on s = false ∧
        ∀ calls, ∃ c, run_updates calls s dfs = some c ∧ spi_context_rx_on c = false) ∧
    (∀ P Q : Nat, P ≠ 0 → Q ≠ 0 →
      ∃ s last, spi_context_buffers_setup ctx
            (buf_array [spi_buf.mk P 2, spi_buf.mk Q 1] restT) (buf_array [] restR) 1
            = some s ∧
        spi_context_rx_on s = false ∧
        tx_loop 4 s 1 = some ([P, P + 1, Q], last) ∧
        tx_off_after s 1 3 ∧
        spi_context_tx_on last = false) := by
  constructor
  · intro L dfs hd
    obtain ⟨s, hs, hinv, hval⟩ := buffers_setup_transfer_inv ctx L [] restT restR dfs hd
    have hoff : spi_context_rx_on s = false := by
      rw [hval]
      rfl
    refine ⟨s, hs, hoff, ?_⟩
    intro calls
    obtain ⟨c, hc, -⟩ := run_updates_transfer_inv L [] restT restR dfs hd calls s hinv
    exact ⟨c, hc, run_updates_rx_off dfs calls s c hoff hc⟩
  · intro P Q hP hQ
    have hL : ∀ b ∈ [spi_buf.mk P 2, spi_buf.mk Q 1], 1 ≤ b.len / 1 := by
      intro b hb
      simp only [List.mem_cons, List.mem_singleton, List.not_mem_nil, or_false] at hb
      rcases hb with rfl | rfl <;> simp
    obtain ⟨s, hs, hloop⟩ := tx_loop_after_setup ctx _ [] restT restR 1 (by decide) hL
    have hrun := hloop 4 (by simp [total_frames])
    have hspec := tx_loop_spec 1 _ _ _ _ hrun
    have hlist : [spi_buf.mk P 2, spi_buf.mk Q 1].flatMap (segment_frames 1)
        = [P, P + 1, Q] := by
      simp [segment_frames, hP, hQ, List.range_succ]
    rw [hlist] at hrun hspec
    have hrx : spi_context_rx_on s = false := by
      rw [buffers_setup_buf_array ctx _ [] restT restR 1 (by decide), Option.some.injEq] at hs
      rw [← hs]
      rfl
    exact ⟨s, _, hs, hrx, hrun, hspec.1, hspec.2.2⟩

/-- Witness of C9: the scenario of the specification with `P = 1000` and
`Q = 2000`, and four mixed advance calls on a transmit-only transaction. -/
theorem unidirectional_transfer_witness :
    (0 < 1 ∧ 1000 ≠ 0 ∧ 2000 ≠ 0) ∧
    (∃ s, spi_context_buffers_setup idle_context
          (buf_array [spi_buf.mk 1000 2, spi_buf.mk 2000 1] []) (buf_array [] []) 1
          = some s ∧
      spi_context_rx_on s = false ∧
      ∃ c, run_updates [update_call.tx, update_call.rx, update_call.rx, update_call.tx] s 1
            = some c ∧ spi_context_rx_on c = false) ∧
    ∃ s last, spi_context_buffers_setup idle_context
          (buf_array [spi_buf.mk 1000 2, spi_buf.mk 2000 1] []) (buf_array [] []) 1
          = some s ∧
      spi_context_rx_on s = false ∧
      tx_loop 4 s 1 = some ([1000, 1000 + 1, 2000], last) ∧
      tx_off_after s 1 3 ∧
      spi_context_tx_on last = false := by
  refine ⟨⟨by decide, by decide, by decide⟩, ?_,
    (unidirectional_transfer idle_context [] []).2 1000 2000 (by decide) (by decide)⟩
  obtain ⟨s, hs, hoff, hall⟩ :=
    (unidirectional_transfer idle_context [] []).1 [spi_buf.mk 1000 2, spi_buf.mk 2000 1] 1
      (by decide)
  exact ⟨s, hs, hoff, hall _⟩

/-- C10 (as amended): in every state reached by `spi_context_buffers_setup`
followed by any number of `update_tx` / `update_rx` calls (frame size
`dfs > 0`; every such sequence returns), if a side's remaining count is 0 then
that side's cursor is on the terminating entry, or it is on a descriptor that
holds no whole frame (`len / dfs = 0`) and the next update call of that side
leaves the context as it is.  When every descriptor of the side's list holds
a whole frame, a remaining count of 0 means the cursor is on the terminating
entry. -/
theorem zero_count_invariant (ctx : spi_context) (L R : List spi_buf)
    (restT restR : List (Option spi_buf)) (dfs : Nat) (hd : 0 < dfs) :
    ∃ s, spi_context_buffers_setup ctx (buf_array L restT) (buf_array R restR) dfs = some s ∧
      ∀ calls, ∃ c, run_updates calls s dfs = some c ∧
        (c.tx_len = 0 →
          c.current_tx.deref = some none ∨
            ∃ b, c.current_tx.deref = some (some b) ∧ b.len / dfs = 0 ∧
              spi_context_update_tx c dfs = some c) ∧
        (c.rx_len = 0 →
          c.current_rx.deref = some none ∨
            ∃ b, c.current_rx.deref = some (some b) ∧ b.len / dfs = 0 ∧
              spi_context_update_rx c dfs = some c) ∧
        ((∀ b ∈ L, 1 ≤ b.len / dfs) → c.tx_len = 0 → c.current_tx.deref = some none) ∧
        ((∀ b ∈ R, 1 ≤ b.len / dfs) → c.rx_len = 0 → c.current_rx.deref = some none) := by
  obtain ⟨s, hs, hinv, -⟩ := buffers_setup_transfer_inv ctx L R restT restR dfs hd
  refine ⟨s, hs, ?_⟩
  intro calls
  obtain ⟨c, hc, htx, hrx⟩ := run_updates_transfer_inv L R restT restR dfs hd calls s hinv
  refine ⟨c, hc, ?_, ?_, ?_, ?_⟩
  · intro h0
    rw [h0] at htx
    rcases side_inv_zero L restT dfs _ _ htx with h | ⟨b, hb, -, hlen⟩
    · exact Or.inl h
    · exact Or.inr ⟨b, hb, hlen, update_tx_zero c dfs h0⟩
  · intro h0
    rw [h0] at hrx
    rcases side_inv_zero R restR dfs _ _ hrx with h | ⟨b, hb, -, hlen⟩
    · exact Or.inl h
    · exact Or.inr ⟨b, hb, hlen, update_rx_zero c dfs h0⟩
  · intro hall h0
    rw [h0] at htx
    rcases side_inv_zero L restT dfs _ _ htx with h | ⟨b, -, hmem, hlen⟩
    · exact h
    · have := hall b hmem
      omega
  · intro hall h0
    rw [h0] at hrx
    rcases side_inv_zero R restR dfs _ _ hrx with h | ⟨b, -, hmem, hlen⟩
    · exact h
    · have := hall b hmem
      omega

/-- C10 fails as stated: with frame size 1 and the transmit list of one empty
descriptor with a present pointer, the state right after
`spi_context_buffers_setup` has `tx_len = 0`, its cursor is on that descriptor
and not on the terminating entry, and the next `spi_context_update_tx` returns
the same context: the cursor is not moved and no descriptor is loaded. -/
theorem zero_count_invariant_counterexample :
    ∃ s, spi_context_buffers_setup idle_context (buf_array [spi_buf.mk 1000 0] [])
          (buf_array [] []) 1 = some s ∧
      s.tx_len = 0 ∧
      ¬ (s.current_tx.deref = some none ∨
          ∃ c, spi_context_update_tx s 1 = some c ∧ c.current_tx = s.current_tx.next) := by
  refine ⟨⟨0, ⟨[some ⟨1000, 0⟩, none], 0⟩, ⟨[none], 0⟩, 1000, 0, 0, 0⟩, by decide,
    by decide, ?_⟩
  rintro (h | ⟨c, hc, hnext⟩)
  · revert h
    decide
  · rw [update_tx_zero _ 1 rfl, Option.some.injEq] at hc
    subst hc
    revert hnext
    decide

/-- Witness of C10 (as amended): a transmit-only transaction of three frames,
after three transmit advances and one receive advance. -/
theorem zero_count_invariant_witness :
    (0 < 4 ∧ (∀ b ∈ [spi_buf.mk 1000 8, spi_buf.mk 2000 4], 1 ≤ b.len / 4) ∧
      ∀ b ∈ ([] : List spi_buf), 1 ≤ b.len / 4) ∧
    ∃ s, spi_context_buffers_setup idle_context
          (buf_array [spi_buf.mk 1000 8, spi_buf.mk 2000 4] []) (buf_array [] []) 4
          = some s ∧
      ∃ c, run_updates [update_call.tx, update_call.tx, update_call.rx, update_call.tx] s 4
            = some c ∧
        (c.tx_len = 0 ∧ c.rx_len = 0) ∧
        c.current_tx.deref = some none ∧ c.current_rx.deref = some none := by
  refine ⟨⟨by decide, by decide, by decide⟩, ?_⟩
  obtain ⟨s, hs, h⟩ := zero_count_invariant idle_context
    [spi_buf.mk 1000 8, spi_buf.mk 2000 4] [] [] [] 4 (by decide)
  obtain ⟨c, hc, -, -, htx, hrx⟩ :=
    h [update_call.tx, update_call.tx, update_call.rx, update_call.tx]
  have hs2 : spi_context_buffers_setup idle_context
      (buf_array [spi_buf.mk 1000 8, spi_buf.mk 2000 4] []) (buf_array [] []) 4
      = some ⟨0, ⟨[some ⟨1000, 8⟩, some ⟨2000, 4⟩, none], 0⟩, ⟨[none], 0⟩, 1000, 2, 0, 0⟩ := by
    decide
  rw [hs2, Option.some.injEq] at hs
  subst hs
  have hc2 : run_updates [update_call.tx, update_call.tx, update_call.rx, update_call.tx]
      ⟨0, ⟨[some ⟨1000, 8⟩, some ⟨2000, 4⟩, none], 0⟩, ⟨[none], 0⟩, 1000, 2, 0, 0⟩ 4
      = some ⟨0, ⟨[some ⟨1000, 8⟩, some ⟨2000, 4⟩, none], 2⟩, ⟨[none], 0⟩, 0, 0, 0, 0⟩ := by
    decide
  have hc3 := hc
  rw [hc2, Option.some.injEq] at hc3
  subst hc3
  exact ⟨_, hs2, _, hc, ⟨rfl, rfl⟩, htx (by decide) rfl, hrx (by decide) rfl⟩

/-- C11: chip-select ordering.  For every context whose configuration declares
a chip-select (device, pin, delay `d`, `d = 0` included),
`spi_context_cs_control(ctx, true)` makes exactly the calls
`gpio_pin_write(device, pin, 0)`, `k_busy_wait(d)` in this order and
`spi_context_cs_control(ctx, false)` exactly `k_busy_wait(d)`,
`gpio_pin_write(device, pin, 1)`; each makes one GPIO write.  When no
chip-select is declared no call is made. -/
theorem cs_control_calls (mem : config_memory) (ctx : spi_context) (config : spi_config)
    (hconfig : mem ctx.config = some config) :
    (∀ cs : spi_cs_control, config.cs = some cs →
      spi_context_cs_control mem ctx true =
          some [hw_call.gpio_pin_write cs.gpio_dev cs.gpio_pin 0,
                hw_call.k_busy_wait cs.delay] ∧
        spi_context_cs_control mem ctx false =
          some [hw_call.k_busy_wait cs.delay,
                hw_call.gpio_pin_write cs.gpio_dev cs.gpio_pin 1] ∧
        ∀ cs_on, ∃ t, spi_context_cs_control mem ctx cs_on = some t ∧
          (t.filter hw_call.is_write).length = 1) ∧
    (config.cs = none → ∀ cs_on, spi_context_cs_control mem ctx cs_on = some []) := by
  constructor
  · intro cs hcs
    refine ⟨?_, ?_, ?_⟩
    · simp [spi_context_cs_control, hconfig, hcs]
    · simp [spi_context_cs_control, hconfig, hcs]
    · intro cs_on
      cases cs_on <;> simp [spi_context_cs_control, hconfig, hcs, hw_call.is_write]
  · intro hcs cs_on
    simp [spi_context_cs_control, hconfig, hcs]

/-- Witness of C11: chip-select on pin 3 of device 50 with delay 10, and a
configuration without chip-select. -/
theorem cs_control_calls_witness :
    (sample_memory armed_context.config = some { operation := 8, cs := some ⟨50, 3, 10⟩ } ∧
      sample_memory 9 = some { operation := 8, cs := none }) ∧
    (spi_context_cs_control sample_memory armed_context true =
        some [hw_call.gpio_pin_write 50 3 0, hw_call.k_busy_wait 10] ∧
      spi_context_cs_control sample_memory armed_context false =
        some [hw_call.k_busy_wait 10, hw_call.gpio_pin_write 50 3 1]) ∧
    ∀ cs_on, spi_context_cs_control sample_memory { armed_context with config := 9 } cs_on
      = some [] :=
  ⟨⟨by decide, by decide⟩,
    ⟨((cs_control_calls sample_memory armed_context
        { operation := 8, cs := some ⟨50, 3, 10⟩ } (by decide)).1 ⟨50, 3, 10⟩ rfl).1,
     ((cs_control_calls sample_memory armed_context
        { operation := 8, cs := some ⟨50, 3, 10⟩ } (by decide)).1 ⟨50, 3, 10⟩ rfl).2.1⟩,
    (cs_control_calls sample_memory { armed_context with config := 9 }
      { operation := 8, cs := none } (by decide)).2 rfl⟩

/-- C12: for every context whose configuration declares a chip-select (device,
pin), `spi_context_cs_configure` makes exactly the calls
`gpio_pin_configure(device, pin, GPIO_DIR_OUT)`, `gpio_pin_write(device, pin, 1)`
and none when no chip-select is declared.  On the GPIO state (direction and
level of each pin) it is idempotent: the calls made twice leave the state that
the calls made once leave, in which the pin is an output at level 1 and every
other pin is as before. -/
theorem cs_configure_calls (mem : config_memory) (ctx : spi_context) (config : spi_config)
    (hconfig : mem ctx.config = some config) :
    (∀ cs : spi_cs_control, config.cs = some cs →
      spi_context_cs_configure mem ctx =
        some [hw_call.gpio_pin_configure cs.gpio_dev cs.gpio_pin GPIO_DIR_OUT,
              hw_call.gpio_pin_write cs.gpio_dev cs.gpio_pin 1]) ∧
    (config.cs = none → spi_context_cs_configure mem ctx = some []) ∧
    ∃ t, spi_context_cs_configure mem ctx = some t ∧
      ∀ g : gpio_state, run_calls (t ++ t) g = run_calls t g ∧
        ∀ cs : spi_cs_control, config.cs = some cs →
          run_calls t g cs.gpio_dev cs.gpio_pin = { dir := GPIO_DIR_OUT, level := 1 } ∧
          ∀ d p, ¬ (d = cs.gpio_dev ∧ p = cs.gpio_pin) → run_calls t g d p = g d p := by
  refine ⟨?_, ?_, ?_⟩
  · intro cs hcs
    simp [spi_context_cs_configure, hconfig, hcs]
  · intro hcs
    simp [spi_context_cs_configure, hconfig, hcs]
  · cases hcs : config.cs with
    | none =>
      refine ⟨[], by simp [spi_context_cs_configure, hconfig, hcs], ?_⟩
      intro g
      exact ⟨rfl, fun cs h => absurd h (by simp)⟩
    | some cs =>
      refine ⟨_, by simp [spi_context_cs_configure, hconfig, hcs]; rfl, ?_⟩
      intro g
      refine ⟨?_, ?_⟩
      · funext d p
        by_cases h : d = cs.gpio_dev ∧ p = cs.gpio_pin <;>
          simp [run_calls, hw_call.apply, h]
      · intro cs2 h2
        simp only [Option.some.injEq] at h2
        subst h2
        refine ⟨by simp [run_calls, hw_call.apply], ?_⟩
        intro d p h
        simp [run_calls, hw_call.apply, h]

/-- Witness of C12: chip-select on pin 3 of device 50, starting from the reset
state of the GPIO hardware. -/
theorem cs_configure_calls_witness :
    sample_memory armed_context.config = some { operation := 8, cs := some ⟨50, 3, 10⟩ } ∧
    spi_context_cs_configure sample_memory armed_context =
      some [hw_call.gpio_pin_configure 50 3 GPIO_DIR_OUT, hw_call.gpio_pin_write 50 3 1] ∧
    ∃ t, spi_context_cs_configure sample_memory armed_context = some t ∧
      run_calls (t ++ t) reset_gpio_state = run_calls t reset_gpio_state ∧
      run_calls t reset_gpio_state 50 3 = { dir := GPIO_DIR_OUT, level := 1 } ∧
      run_calls t reset_gpio_state 50 4 = reset_gpio_state 50 4 := by
  refine ⟨by decide,
    (cs_configure_calls sample_memory armed_context
      { operation := 8, cs := some ⟨50, 3, 10⟩ } (by decide)).1 ⟨50, 3, 10⟩ rfl, ?_⟩
  obtain ⟨t, ht, h⟩ := (cs_configure_calls sample_memory armed_context
      { operation := 8, cs := some ⟨50, 3, 10⟩ } (by decide)).2.2
  exact ⟨t, ht, (h reset_gpio_state).1, ((h reset_gpio_state).2 ⟨50, 3, 10⟩ rfl).1,
    ((h reset_gpio_state).2 ⟨50, 3, 10⟩ rfl).2 50 4 (by decide)⟩

/-- C13: for every context and configuration reference `c`,
`spi_context_configured(ctx, c)` is true exactly when the cached configuration
reference is the same reference as `c`.  Of two distinct references to
configurations that agree in every field it answers false for the one that is
not cached.  It only reads the context. -/
theorem configured_iff_same_reference (ctx : spi_context) (c : Nat) :
    (spi_context_configured ctx c = true ↔ ctx.config = c) ∧
    ∀ (mem : config_memory) (a : Nat), a ≠ c → mem a = mem c → ctx.config = a →
      spi_context_configured ctx a = true ∧ spi_context_configured ctx c = false := by
  refine ⟨by simp [spi_context_configured], ?_⟩
  intro mem a hne _ hcached
  simp [spi_context_configured, hcached, hne]

/-- Witness of C13: the configurations at the addresses 7 and 8 agree in every
field; a context bound to the one at 7 is not configured for the one at 8. -/
theorem configured_iff_same_reference_witness :
    (7 ≠ 8 ∧ sample_memory 7 = sample_memory 8 ∧ armed_context.config = 7) ∧
    spi_context_configured armed_context 7 = true ∧
    spi_context_configured armed_context 8 = false :=
  ⟨⟨by decide, by decide, by decide⟩,
    (configured_iff_same_reference armed_context 8).2 sample_memory 7 (by decide)
      (by decide) (by decide)⟩

/-- C14: re-arming carries no cursor state over.  For any two contexts, in
whatever state, and the same transmit list, receive list and frame size
`dfs > 0`, `spi_context_buffers_setup` returns contexts with the same cursors,
byte pointers and remaining counts; only the cached configuration reference
survives from the prior state, unchanged, so `spi_context_configured` answers
after setup what it answered before. -/
theorem buffers_setup_forgets_cursors (ctx1 ctx2 : spi_context)
    (tx_bufs rx_bufs : spi_buf_ptr) (dfs : Nat) (et er : Option spi_buf) (hd : 0 < dfs)
    (htx : tx_bufs.deref = some et) (hrx : rx_bufs.deref = some er) :
    ∃ s1 s2, spi_context_buffers_setup ctx1 tx_bufs rx_bufs dfs = some s1 ∧
      spi_context_buffers_setup ctx2 tx_bufs rx_bufs dfs = some s2 ∧
      s1.current_tx = s2.current_tx ∧ s1.current_rx = s2.current_rx ∧
      s1.tx_buf = s2.tx_buf ∧ s1.tx_len = s2.tx_len ∧
      s1.rx_buf = s2.rx_buf ∧ s1.rx_len = s2.rx_len ∧
      s1.config = ctx1.config ∧ s2.config = ctx2.config ∧
      (∀ c, spi_context_configured s1 c = spi_context_configured ctx1 c) ∧
      (∀ c, spi_context_configured s2 c = spi_context_configured ctx2 c) :=
  ⟨_, _, buffers_setup_eq ctx1 tx_bufs rx_bufs dfs et er hd htx hrx,
    buffers_setup_eq ctx2 tx_bufs rx_bufs dfs et er hd htx hrx,
    rfl, rfl, rfl, rfl, rfl, rfl, rfl, rfl, fun _ => rfl, fun _ => rfl⟩

/-- Witness of C14: the same lists armed on a context in the middle of a
transaction and on an idle context bound to another configuration. -/
theorem buffers_setup_forgets_cursors_witness :
    (0 < 2 ∧ (buf_array [spi_buf.mk 3000 6] []).deref = some (some (spi_buf.mk 3000 6)) ∧
      (buf_array [spi_buf.mk 4000 6] []).deref = some (some (spi_buf.mk 4000 6))) ∧
    ∃ s1 s2, spi_context_buffers_setup mid_context (buf_array [spi_buf.mk 3000 6] [])
          (buf_array [spi_buf.mk 4000 6] []) 2 = some s1 ∧
      spi_context_buffers_setup idle_context (buf_array [spi_buf.mk 3000 6] [])
          (buf_array [spi_buf.mk 4000 6] []) 2 = some s2 ∧
      s1.current_tx = s2.current_tx ∧ s1.current_rx = s2.current_rx ∧
      s1.tx_buf = s2.tx_buf ∧ s1.tx_len = s2.tx_len ∧
      s1.rx_buf = s2.rx_buf ∧ s1.rx_len = s2.rx_len ∧
      s1.config = mid_context.config ∧ s2.config = idle_context.config ∧
      (∀ c, spi_context_configured s1 c = spi_context_configured mid_context c) ∧
      (∀ c, spi_context_configured s2 c = spi_context_configured idle_context c) :=
  ⟨⟨by decide, by decide, by decide⟩,
    buffers_setup_forgets_cursors mid_context idle_context (buf_array [spi_buf.mk 3000 6] [])
      (buf_array [spi_buf.mk 4000 6] []) 2 (some (spi_buf.mk 3000 6))
      (some (spi_buf.mk 4000 6)) (by decide) (by decide) (by decide)⟩

/-- C15: side symmetry.  With `swap_sides` exchanging the transmit and the
receive cursor of a context, for every context and frame size
`spi_context_update_rx` is `spi_context_update_tx` between two swaps and
`spi_context_rx_on` is `spi_context_tx_on` after a swap, and the other way
round; the swap is its own inverse, and repeated receive advances are repeated
transmit advances between two swaps. -/
theorem update_rx_mirrors_update_tx (ctx : spi_context) (dfs : Nat) :
    spi_context_update_rx ctx dfs =
        (spi_context_update_tx (swap_sides ctx) dfs).map swap_sides ∧
    spi_context_rx_on ctx = spi_context_tx_on (swap_sides ctx) ∧
    spi_context_update_tx ctx dfs =
        (spi_context_update_rx (swap_sides ctx) dfs).map swap_sides ∧
    spi_context_tx_on ctx = spi_context_rx_on (swap_sides ctx) ∧
    swap_sides (swap_sides ctx) = ctx ∧
    ∀ n, update_rx_times n ctx dfs = (update_tx_times n (swap_sides ctx) dfs).map swap_sides := by
  have hinv : ∀ c : spi_context, swap_sides (swap_sides c) = c := fun c => rfl
  refine ⟨update_rx_eq_swap ctx dfs, rfl, ?_, rfl, rfl, ?_⟩
  · rw [update_rx_eq_swap, hinv]
    cases spi_context_update_tx ctx dfs with
    | none => rfl
    | some c => rfl
  · intro n
    induction n generalizing ctx with
    | zero => rfl
    | succ n ih =>
      simp only [update_rx_times, update_tx_times, update_rx_eq_swap ctx dfs]
      cases spi_context_update_tx (swap_sides ctx) dfs with
      | none => rfl
      | some c =>
        simp only [Option.map_some']
        rw [ih (swap_sides c), hinv]

/-- C18: side independence.  For every context and frame size,
`spi_context_update_tx` leaves `current_rx`, `rx_buf`, `rx_len` and `config`
as they are, `spi_context_update_rx` leaves `current_tx`, `tx_buf`, `tx_len`
and `config` as they are, and the two commute: a receive advance followed by a
transmit advance gives what the transmit advance followed by the receive
advance gives. -/
theorem updates_independent (ctx : spi_context) (dfs : Nat) :
    (∀ c, spi_context_update_tx ctx dfs = some c →
      c.current_rx = ctx.current_rx ∧ c.rx_buf = ctx.rx_buf ∧ c.rx_len = ctx.rx_len ∧
        c.config = ctx.config) ∧
    (∀ c, spi_context_update_rx ctx dfs = some c →
      c.current_tx = ctx.current_tx ∧ c.tx_buf = ctx.tx_buf ∧ c.tx_len = ctx.tx_len ∧
        c.config = ctx.config) ∧
    (spi_context_update_rx ctx dfs).bind (fun d => spi_context_update_tx d dfs) =
      (spi_context_update_tx ctx dfs).bind (fun d => spi_context_update_rx d dfs) :=
  ⟨fun c h => update_tx_keeps_rx ctx c dfs h, fun c h => update_rx_keeps_tx ctx c dfs h,
    update_tx_rx_comm ctx dfs⟩

/-- Witness of C18: a bidirectional transaction in its first frame. -/
theorem updates_independent_witness :
    (spi_context_update_tx duplex_context 2 =
        some { duplex_context with tx_buf := 3002, tx_len := 2 } ∧
      spi_context_update_rx duplex_context 2 =
        some { duplex_context with current_rx := ⟨[some ⟨4000, 2⟩, none], 1⟩,
                                   rx_buf := 0, rx_len := 0 }) ∧
    ({ duplex_context with tx_buf := 3002, tx_len := 2 } : spi_context).rx_len
      = duplex_context.rx_len ∧
    ({ duplex_context with current_rx := ⟨[some ⟨4000, 2⟩, none], 1⟩,
                           rx_buf := 0, rx_len := 0 } : spi_context).tx_buf
      = duplex_context.tx_buf ∧
    (spi_context_update_rx duplex_context 2).bind (fun d => spi_context_update_tx d 2) =
      (spi_context_update_tx duplex_context 2).bind (fun d => spi_context_update_rx d 2) :=
  ⟨⟨by decide, by decide⟩,
    ((updates_independent duplex_context 2).1 _ (by decide)).2.2.1,
    ((updates_independent duplex_context 2).2.1 _ (by decide)).2.1,
    (updates_independent duplex_context 2).2.2⟩

/-- C16: in-bounds frame invariant.  For every list and frame size `dfs > 0`,
in every state reached by `spi_context_buffers_setup` followed by any number of
`spi_context_update_tx` calls (each of which returns), if `tx_len > 0` and
`tx_buf` is present then the cursor is on a descriptor with a present pointer
`b.buf` and length `b.len`, `tx_buf = b.buf + (b.len / dfs - tx_len) * dfs`,
and the frame `[tx_buf, tx_buf + dfs)` lies inside `[b.buf, b.buf + b.len)`. -/
theorem tx_frame_in_bounds (ctx : spi_context) (L R : List spi_buf)
    (restT restR : List (Option spi_buf)) (dfs : Nat) (hd : 0 < dfs) :
    ∃ s, spi_context_buffers_setup ctx (buf_array L restT) (buf_array R restR) dfs = some s ∧
      ∀ n, ∃ c, update_tx_times n s dfs = some c ∧
        (0 < c.tx_len → c.tx_buf ≠ 0 →
          ∃ b, c.current_tx.deref = some (some b) ∧ L[c.current_tx.idx]? = some b ∧
            b.buf ≠ 0 ∧ c.tx_buf = b.buf + (b.len / dfs - c.tx_len) * dfs ∧
            b.buf ≤ c.tx_buf ∧ c.tx_buf + dfs ≤ b.buf + b.len) := by
  obtain ⟨s, hs, hinv, -⟩ := buffers_setup_transfer_inv ctx L R restT restR dfs hd
  refine ⟨s, hs, ?_⟩
  intro n
  obtain ⟨c, hc, harr, hcase⟩ := update_tx_times_side_inv L restT dfs hd n s hinv.1
  refine ⟨c, hc, ?_⟩
  intro hlen hbuf
  cases hget : L[c.current_tx.idx]? with
  | none =>
    rw [hget] at hcase
    omega
  | some b =>
    rw [hget] at hcase
    obtain ⟨hle, -, hval⟩ := hcase
    have hcur : c.current_tx = ⟨L.map some ++ none :: restT, c.current_tx.idx⟩ := by
      cases hct : c.current_tx
      simp_all
    have hb : b.buf ≠ 0 := by
      intro h0
      rw [h0] at hval
      simp at hval
      exact hbuf hval
    rw [if_neg hb] at hval
    have hmul : b.len / dfs * dfs ≤ b.len := Nat.div_mul_le_self b.len dfs
    have hsplit : b.len / dfs = (b.len / dfs - c.tx_len) + c.tx_len := by omega
    have hframes : (b.len / dfs - c.tx_len) * dfs + dfs ≤ b.len / dfs * dfs := by
      calc (b.len / dfs - c.tx_len) * dfs + dfs
          = ((b.len / dfs - c.tx_len) + 1) * dfs := by rw [Nat.add_mul, Nat.one_mul]
        _ ≤ (b.len / dfs) * dfs := Nat.mul_le_mul_right dfs (by omega)
    refine ⟨b, ?_, rfl, hb, hval, by omega, by omega⟩
    rw [hcur]
    exact array_read_descriptor L restT _ b hget

/-- Witness of C16: the second frame of the list `[{1000, 8}, {2000, 4}]` with
frame size 4 is the frame at 1004, inside the first descriptor. -/
theorem tx_frame_in_bounds_witness :
    0 < 4 ∧
    ∃ s, spi_context_buffers_setup idle_context
          (buf_array [spi_buf.mk 1000 8, spi_buf.mk 2000 4] []) (buf_array [] []) 4
          = some s ∧
      ∃ c, update_tx_times 1 s 4 = some c ∧ (0 < c.tx_len ∧ c.tx_buf ≠ 0) ∧
        ∃ b, c.current_tx.deref = some (some b) ∧ b = spi_buf.mk 1000 8 ∧
          c.tx_buf = 1004 ∧ c.tx_buf = b.buf + (b.len / 4 - c.tx_len) * 4 ∧
          b.buf ≤ c.tx_buf ∧ c.tx_buf + 4 ≤ b.buf + b.len := by
  refine ⟨by decide, ?_⟩
  obtain ⟨s, hs, h⟩ := tx_frame_in_bounds idle_context
    [spi_buf.mk 1000 8, spi_buf.mk 2000 4] [] [] [] 4 (by decide)
  obtain ⟨c, hc, hframe⟩ := h 1
  have hs2 : spi_context_buffers_setup idle_context
      (buf_array [spi_buf.mk 1000 8, spi_buf.mk 2000 4] []) (buf_array [] []) 4
      = some ⟨0, ⟨[some ⟨1000, 8⟩, some ⟨2000, 4⟩, none], 0⟩, ⟨[none], 0⟩, 1000, 2, 0, 0⟩ := by
    decide
  rw [hs2, Option.some.injEq] at hs
  subst hs
  have hc2 : update_tx_times 1
      ⟨0, ⟨[some ⟨1000, 8⟩, some ⟨2000, 4⟩, none], 0⟩, ⟨[none], 0⟩, 1000, 2, 0, 0⟩ 4
      = some ⟨0, ⟨[some ⟨1000, 8⟩, some ⟨2000, 4⟩, none], 0⟩, ⟨[none], 0⟩, 1004, 1, 0, 0⟩ := by
    decide
  have hc3 := hc
  rw [hc2, Option.some.injEq] at hc3
  subst hc3
  obtain ⟨b, hder, hget, -, hval, hlo, hhi⟩ := hframe (by decide) (by decide)
  have hb : b = spi_buf.mk 1000 8 := by
    have : (some b : Option spi_buf) = some (spi_buf.mk 1000 8) := by
      rw [← hget]
      rfl
    exact Option.some.inj this
  exact ⟨_, hs2, _, hc, ⟨by decide, by decide⟩, b, hder, hb, rfl, hval, hlo, hhi⟩

/-- C17: the cursor never runs past the sentinel.  For every transmit array
whose first `NULL` entry is at index `n` and every frame size `dfs > 0`, in
every state reached by `spi_context_buffers_setup` followed by any number of
`spi_context_update_tx` calls the cursor still points into that array at an
index of at most `n`, `tx_len > 0` implies that the index is less than `n`,
and the next `spi_context_update_tx` returns: the entry it reads, if any, is
at an index of at most `n` and inside the array. -/
theorem tx_cursor_within_list (ctx : spi_context) (arr : List (Option spi_buf)) (n : Nat)
    (R : List spi_buf) (restR : List (Option spi_buf)) (dfs : Nat) (hd : 0 < dfs)
    (hfirst : ∀ i, i < n → ∃ b, arr[i]? = some (some b)) (hnull : arr[n]? = some none) :
    ∃ s, spi_context_buffers_setup ctx ⟨arr, 0⟩ (buf_array R restR) dfs = some s ∧
      ∀ k, ∃ c, update_tx_times k s dfs = some c ∧
        c.current_tx.arr = arr ∧ c.current_tx.idx ≤ n ∧
        (0 < c.tx_len → c.current_tx.idx < n) ∧
        (c.tx_len = 1 → c.current_tx.next.idx ≤ n ∧ c.current_tx.next.deref ≠ none) ∧
        ∃ c', spi_context_update_tx c dfs = some c' := by
  obtain ⟨L, rest, rfl, rfl⟩ := array_of_first_null n arr hfirst hnull
  obtain ⟨s, hs, hinv, -⟩ := buffers_setup_transfer_inv ctx L R rest restR dfs hd
  refine ⟨s, hs, ?_⟩
  intro k
  obtain ⟨c, hc, hside⟩ := update_tx_times_side_inv L rest dfs hd k s hinv.1
  obtain ⟨c', hc', -⟩ := update_tx_side_inv L rest dfs hd c hside
  obtain ⟨harr, hcase⟩ := hside
  have hpos : 0 < c.tx_len → c.current_tx.idx < L.length := by
    intro hlen
    cases hget : L[c.current_tx.idx]? with
    | none =>
      rw [hget] at hcase
      omega
    | some b =>
      by_contra hge
      rw [List.getElem?_eq_none (by omega)] at hget
      exact absurd hget (by simp)
  have hle : c.current_tx.idx ≤ L.length := by
    cases hget : L[c.current_tx.idx]? with
    | none =>
      rw [hget] at hcase
      omega
    | some b =>
      by_contra hge
      rw [List.getElem?_eq_none (by omega)] at hget
      exact absurd hget (by simp)
  refine ⟨c, hc, harr, hle, hpos, ?_, c', hc'⟩
  intro h1
  have hlt := hpos (by omega)
  refine ⟨by simpa [spi_buf_ptr.next] using hlt, ?_⟩
  intro hnone
  have hlen : (L.map some ++ none :: rest).length ≤ c.current_tx.idx + 1 := by
    have := List.getElem?_eq_none_iff.mp
      (show (L.map some ++ none :: rest)[c.current_tx.idx + 1]? = none by
        simpa [spi_buf_ptr.deref, spi_buf_ptr.next, harr] using hnone)
    exact this
  simp only [List.length_append, List.length_map, List.length_cons] at hlen
  omega

/-- Witness of C17: the array `[{1000, 8}, {2000, 4}, NULL]` with `n = 2`,
frame size 4, after one advance and after five. -/
theorem tx_cursor_within_list_witness :
    (0 < 4 ∧
      (∀ i, i < 2 → ∃ b, [some (spi_buf.mk 1000 8), some (spi_buf.mk 2000 4), none][i]?
        = some (some b)) ∧
      [some (spi_buf.mk 1000 8), some (spi_buf.mk 2000 4), none][2]? = some none) ∧
    ∃ s, spi_context_buffers_setup idle_context
          ⟨[some (spi_buf.mk 1000 8), some (spi_buf.mk 2000 4), none], 0⟩
          (buf_array [] []) 4 = some s ∧
      (∃ c, update_tx_times 1 s 4 = some c ∧ c.current_tx.idx ≤ 2 ∧
        ∃ c', spi_context_update_tx c 4 = some c') ∧
      ∃ c, update_tx_times 5 s 4 = some c ∧ c.current_tx.idx ≤ 2 ∧
        ∃ c', spi_context_update_tx c 4 = some c' := by
  have hfirst : ∀ i, i < 2 →
      ∃ b, [some (spi_buf.mk 1000 8), some (spi_buf.mk 2000 4), none][i]?
        = some (some b) := by
    intro i hi
    rcases Nat.lt_succ_iff_lt_or_eq.mp hi with h | h
    · have h0 : i = 0 := by omega
      subst h0
      exact ⟨_, rfl⟩
    · subst h
      exact ⟨_, rfl⟩
  refine ⟨⟨by decide, hfirst, by decide⟩, ?_⟩
  obtain ⟨s, hs, h⟩ := tx_cursor_within_list idle_context
    [some (spi_buf.mk 1000 8), some (spi_buf.mk 2000 4), none] 2 [] [] 4 (by decide)
    hfirst (by decide)
  obtain ⟨c1, hc1, -, hle1, -, -, hnext1⟩ := h 1
  obtain ⟨c5, hc5, -, hle5, -, -, hnext5⟩ := h 5
  exact ⟨s, hs, ⟨c1, hc1, hle1, hnext1⟩, c5, hc5, hle5, hnext5⟩

/-- C19: stuck state on a frameless descriptor.  For every frame size
`dfs > 0` and every transmit list `pre ++ b :: post` in which `b` has a present
pointer and a length below `dfs` (length 0 for one) and the cursor reaches `b`
(every descriptor before it holds a whole frame), after the frames of `pre`
the context has `tx_buf` present and `tx_len = 0` with the cursor on `b`:
`spi_context_tx_on` is true, `spi_context_update_tx` returns the context
unchanged, and after any number of further calls the context is still this
one, so `spi_context_tx_on` stays true and the descriptors of `post` are never
loaded. -/
theorem tx_stuck_on_frameless_descriptor (ctx : spi_context) (pre post R : List spi_buf)
    (b : spi_buf) (restT restR : List (Option spi_buf)) (dfs : Nat) (hd : 0 < dfs)
    (hpre : ∀ x ∈ pre, 1 ≤ x.len / dfs) (hbuf : b.buf ≠ 0) (hlen : b.len < dfs) :
    ∃ s c, spi_context_buffers_setup ctx (buf_array (pre ++ b :: post) restT)
          (buf_array R restR) dfs = some s ∧
      update_tx_times (total_frames dfs pre) s dfs = some c ∧
      c.tx_buf = b.buf ∧ c.tx_len = 0 ∧
      c.current_tx = ⟨(pre ++ b :: post).map some ++ none :: restT, pre.length⟩ ∧
      c.current_tx.deref = some (some b) ∧
      spi_context_tx_on c = true ∧
      spi_context_update_tx c dfs = some c ∧
      ∀ m, update_tx_times (total_frames dfs pre + m) s dfs = some c := by
  have hs := buffers_setup_buf_array ctx (pre ++ b :: post) R restT restR dfs hd
  have hdiv : b.len / dfs = 0 := Nat.div_eq_of_lt hlen
  have hrun := update_tx_times_prefix dfs hd restT (b :: post) pre []
    (spi_context.mk ctx.config (buf_array (pre ++ b :: post) restT) (buf_array R restR)
      (head_buf (pre ++ b :: post)) (head_len dfs (pre ++ b :: post))
      (head_buf R) (head_len dfs R))
    (by simp [buf_array]) rfl rfl hpre
  simp only [List.nil_append] at hrun
  have hzero : head_len dfs (b :: post) = 0 := hdiv
  refine ⟨_, _, hs, hrun, rfl, hzero, rfl, ?_, ?_, ?_, ?_⟩
  · exact buf_array_deref_lt pre post b restT
  · simp [spi_context_tx_on, head_buf, hbuf]
  · exact update_tx_zero _ dfs hzero
  · intro m
    rw [update_tx_times_add, hrun]
    exact update_tx_times_zero_len dfs _ hzero m

/-- Witness of C19: frame size 1 and an empty descriptor with a present
pointer between two one-byte descriptors; the third is never loaded. -/
theorem tx_stuck_on_frameless_descriptor_witness :
    (0 < 1 ∧ (∀ x ∈ [spi_buf.mk 100 1], 1 ≤ x.len / 1) ∧
      (spi_buf.mk 200 0).buf ≠ 0 ∧ (spi_buf.mk 200 0).len < 1) ∧
    ∃ s c, spi_context_buffers_setup idle_context
          (buf_array ([spi_buf.mk 100 1] ++ spi_buf.mk 200 0 :: [spi_buf.mk 300 1]) [])
          (buf_array [] []) 1 = some s ∧
      update_tx_times (total_frames 1 [spi_buf.mk 100 1]) s 1 = some c ∧
      c.tx_buf = 200 ∧ c.tx_len = 0 ∧
      c.current_tx = ⟨([spi_buf.mk 100 1] ++ spi_buf.mk 200 0 :: [spi_buf.mk 300 1]).map some
                        ++ none :: [], 1⟩ ∧
      c.current_tx.deref = some (some (spi_buf.mk 200 0)) ∧
      spi_context_tx_on c = true ∧
      spi_context_update_tx c 1 = some c ∧
      ∀ m, update_tx_times (total_frames 1 [spi_buf.mk 100 1] + m) s 1 = some c :=
  ⟨⟨by decide, by decide, by decide, by decide⟩,
    tx_stuck_on_frameless_descriptor idle_context [spi_buf.mk 100 1] [spi_buf.mk 300 1] []
      (spi_buf.mk 200 0) [] [] 1 (by decide) (by decide) (by decide) (by decide)⟩

end SpiContext
